import Mathlib

/-!
Shallow embedding of the cushion document database (a CouchDB-style layer
over Deno KV) and proofs about its specification claims.

The embedding follows the source files:
* src/utils.ts        — key layout (tuple constructors)
* src/view-query.ts   — the ViewQuery fluent builder (src/unnamed/part_000)
* src/cushion.ts      — document store and view engine
-/

/-- A Deno KV key part, restricted to the primitive parts the code uses
(strings for namespaces, markers, view names and document ids; numbers and
booleans may appear inside emit keys). -/
inductive KvPart where
  | s (v : String)
  | i (v : Int)
  | b (v : Bool)
deriving DecidableEq, Repr

/-- A Deno KV key is a tuple of parts. -/
abbrev KvKey := List KvPart

/-! Key layout, from src/utils.ts. -/

/-- `getDocPrefix(namespace)` = `[namespace, "doc"]`. -/
def getDocPrefix (ns : String) : KvKey := [KvPart.s ns, KvPart.s ("doc")]

/-- `getViewRefPrefix(namespace, viewName)` = `[namespace, "viewref", viewName]`. -/
def getViewRefPrefix (ns viewName : String) : KvKey :=
  [KvPart.s ns, KvPart.s ("viewref"), KvPart.s viewName]

/-- `getDocumentKey(namespace, id)` = `[namespace, "doc", id]`. -/
def getDocumentKey (ns id : String) : KvKey := getDocPrefix ns ++ [KvPart.s id]

/-- `getDesignKey(namespace, id)` = `[namespace, "design", id]`. -/
def getDesignKey (ns id : String) : KvKey :=
  [KvPart.s ns, KvPart.s ("design"), KvPart.s id]

/-- `getViewKey(namespace, viewName)` = `[namespace, "view", viewName]`. -/
def getViewKey (ns viewName : String) : KvKey :=
  [KvPart.s ns, KvPart.s ("view"), KvPart.s viewName]

/-- `getViewRefKey(namespace, viewName, docId)` = `[namespace, "viewref", viewName, docId]`. -/
def getViewRefKey (ns viewName docId : String) : KvKey :=
  getViewRefPrefix ns viewName ++ [KvPart.s docId]

/-! JavaScript number semantics needed by the builder.  A JS number is a
double; every finite double is a rational, so finite values are modelled
exactly as `ℚ`, with the three non-finite values as extra constructors. -/

/-- A JavaScript number: a finite value (exact, as a rational), one of the
two infinities, or NaN. -/
inductive JsNum where
  | fin (q : ℚ)
  | posInf
  | negInf
  | nan
deriving DecidableEq, Repr

/-- Truncation of a rational toward zero (the real-number part of the
ECMAScript ToInt32 conversion). -/
def ratTrunc (q : ℚ) : Int := q.num.tdiv (q.den : Int)

/-- ECMAScript ToInt32 applied to an integer: reduce modulo 2^32 into
the interval [-2^31, 2^31). -/
def ecmaToInt32 (t : Int) : Int :=
  let m := t % 4294967296
  if m < 2147483648 then m else m - 4294967296

/-- The `~~n` double-bitwise-not idiom of the source: ECMAScript ToInt32.
NaN and the infinities convert to 0; finite values truncate toward zero and
then wrap modulo 2^32 into [-2^31, 2^31). -/
def jsToInt32 : JsNum → Int
  | JsNum.fin q => ecmaToInt32 (ratTrunc q)
  | _ => 0

/-- `Math.max(0, n)` (NaN propagates; -Infinity clamps to 0). -/
def jsMax0 : JsNum → JsNum
  | JsNum.fin q => JsNum.fin (max 0 q)
  | JsNum.posInf => JsNum.posInf
  | JsNum.negInf => JsNum.fin 0
  | JsNum.nan => JsNum.nan

/-- The JS comparison `n > 0` (false for NaN and -Infinity). -/
def jsGtZero : JsNum → Bool
  | JsNum.fin q => decide (0 < q)
  | JsNum.posInf => true
  | _ => false

/-! The error kinds of the specification (names are semantic). -/

inductive Err where
  | unexpectedRev
  | duplicateDocument
  | revisionConflict
  | undefinedView
  | invalidGroupLevel
  | notImplemented
deriving DecidableEq, Repr

/-! The ViewQuery builder, from src/view-query.ts. -/

/-- The private state of a `ViewQuery` builder.  Field names mirror the
private `#` fields of the class; `pfx?` models `#prefix`. -/
structure ViewQuery where
  viewName : String
  limitVal : JsNum := JsNum.posInf
  skipVal : JsNum := JsNum.fin 0
  reduceFlag : Bool := false
  includeDocsFlag : Bool := false
  descendingFlag : Bool := false
  key? : Option String := none
  keys? : Option (List String) := none
  pfx? : Option (List KvPart) := none
  startKey? : Option (List KvPart) := none
  endKey? : Option (List KvPart) := none
  startKeyDocId? : Option String := none
  endKeyDocId? : Option String := none
  groupLevel? : Option Int := none
deriving DecidableEq, Repr

/-- The two opaque direction tokens. -/
inductive SortOrder where
  | descending
  | ascending
deriving DecidableEq, Repr

/-- `ViewQuery.for(viewName)`: a fresh builder (`for` is reserved in Lean). -/
def ViewQuery.forName (viewName : String) : ViewQuery := { viewName }

/-- `key(key)`. -/
def ViewQuery.key (q : ViewQuery) (k : String) : ViewQuery := { q with key? := some k }

/-- `keys(keys)`. -/
def ViewQuery.keys (q : ViewQuery) (ks : List String) : ViewQuery := { q with keys? := some ks }

/-- `prefix(prefix)`. -/
def ViewQuery.pfx (q : ViewQuery) (p : List KvPart) : ViewQuery := { q with pfx? := some p }

/-- `range(startKey, endKey)`. -/
def ViewQuery.range (q : ViewQuery) (s e : List KvPart) : ViewQuery :=
  { q with startKey? := some s, endKey? := some e }

/-- `idRange(startId, endId)`. -/
def ViewQuery.idRange (q : ViewQuery) (s e : String) : ViewQuery :=
  { q with startKeyDocId? := some s, endKeyDocId? := some e }

/-- `skip(n)`: stores `~~Math.max(0, n)`. -/
def ViewQuery.skip (q : ViewQuery) (n : JsNum) : ViewQuery :=
  { q with skipVal := JsNum.fin ((jsToInt32 (jsMax0 n) : ℚ)) }

/-- `limit(n)`: stores `~~Math.max(0, n)`. -/
def ViewQuery.limit (q : ViewQuery) (n : JsNum) : ViewQuery :=
  { q with limitVal := JsNum.fin ((jsToInt32 (jsMax0 n) : ℚ)) }

/-- `includeDocs(shouldInclude = true)`. -/
def ViewQuery.includeDocs (q : ViewQuery) (shouldInclude : Bool := true) : ViewQuery :=
  { q with includeDocsFlag := shouldInclude }

/-- `order(direction)`. -/
def ViewQuery.order (q : ViewQuery) (direction : SortOrder) : ViewQuery :=
  { q with descendingFlag := direction == SortOrder.descending }

/-- `reduce(shouldReduce = true)`. -/
def ViewQuery.reduce (q : ViewQuery) (shouldReduce : Bool := true) : ViewQuery :=
  { q with reduceFlag := shouldReduce }

/-- The argument of `group`: a boolean or a number. -/
inductive GroupArg where
  | bool (b : Bool)
  | num (n : JsNum)
deriving DecidableEq, Repr

/-- `group(level = true)`, from the source:
`true` or `0` set reduce and groupLevel 0; `false` clears groupLevel only;
a number greater than 0 sets reduce and `~~level`; anything else throws. -/
def ViewQuery.group (q : ViewQuery) (level : GroupArg := GroupArg.bool true) :
    Except Err ViewQuery :=
  if level = GroupArg.bool true ∨ level = GroupArg.num (JsNum.fin 0) then
    Except.ok { q with reduceFlag := true, groupLevel? := some 0 }
  else if level = GroupArg.bool false then
    Except.ok { q with groupLevel? := none }
  else
    match level with
    | GroupArg.num n =>
        if jsGtZero n then
          Except.ok { q with reduceFlag := true, groupLevel? := some (jsToInt32 n) }
        else Except.error Err.invalidGroupLevel
    | _ => Except.error Err.invalidGroupLevel

/-- The shape variant of a materialised query specification. -/
inductive ParamsShape where
  | key (k : String)
  | keys (ks : List String)
  | pfx (p : List KvPart)
  | range (startKey endKey : List KvPart)
      (startKeyDocId endKeyDocId : Option String) (groupLevel : Option Int)
  | scan (groupLevel : Option Int)
deriving DecidableEq, Repr

/-- The `type` discriminator string of a shape. -/
def ParamsShape.typeName : ParamsShape → String
  | ParamsShape.key _ => "key"
  | ParamsShape.keys _ => "keys"
  | ParamsShape.pfx _ => "prefix"
  | ParamsShape.range _ _ _ _ _ => "range"
  | ParamsShape.scan _ => "scan"

/-- The record returned by `getParams()`. -/
structure ViewQueryParameters where
  viewName : String
  reduce : Bool
  includeDocs : Bool
  descending : Bool
  limit : JsNum
  skip : JsNum
  shape : ParamsShape
deriving DecidableEq, Repr

/-- `getParams()`: the first satisfied shape in precedence order
key, keys, prefix, range, scan wins. -/
def ViewQuery.getParams (q : ViewQuery) : ViewQueryParameters :=
  match q.key? with
  | some k =>
      ⟨q.viewName, q.reduceFlag, q.includeDocsFlag, q.descendingFlag,
        q.limitVal, q.skipVal, ParamsShape.key k⟩
  | none =>
    match q.keys? with
    | some ks =>
        ⟨q.viewName, q.reduceFlag, q.includeDocsFlag, q.descendingFlag,
          q.limitVal, q.skipVal, ParamsShape.keys ks⟩
    | none =>
      match q.pfx? with
      | some p =>
          ⟨q.viewName, q.reduceFlag, q.includeDocsFlag, q.descendingFlag,
            q.limitVal, q.skipVal, ParamsShape.pfx p⟩
      | none =>
        match q.startKey?, q.endKey? with
        | some s, some e =>
            ⟨q.viewName, q.reduceFlag, q.includeDocsFlag, q.descendingFlag,
              q.limitVal, q.skipVal,
              ParamsShape.range s e q.startKeyDocId? q.endKeyDocId? q.groupLevel?⟩
        | _, _ =>
            ⟨q.viewName, q.reduceFlag, q.includeDocsFlag, q.descendingFlag,
              q.limitVal, q.skipVal, ParamsShape.scan q.groupLevel?⟩

/-- One shape-setting call on the builder. -/
inductive ShapeCall where
  | key (k : String)
  | keys (ks : List String)
  | pfx (p : List KvPart)
  | range (s e : List KvPart)
deriving DecidableEq, Repr

def ShapeCall.isKey : ShapeCall → Bool
  | ShapeCall.key _ => true
  | _ => false

def ShapeCall.isKeys : ShapeCall → Bool
  | ShapeCall.keys _ => true
  | _ => false

def ShapeCall.isPfx : ShapeCall → Bool
  | ShapeCall.pfx _ => true
  | _ => false

def ShapeCall.isRange : ShapeCall → Bool
  | ShapeCall.range _ _ => true
  | _ => false

/-- Apply one shape-setting call. -/
def applyShapeCall (q : ViewQuery) : ShapeCall → ViewQuery
  | ShapeCall.key k => q.key k
  | ShapeCall.keys ks => q.keys ks
  | ShapeCall.pfx p => q.pfx p
  | ShapeCall.range s e => q.range s e

/-- Apply an interleaving of shape-setting calls in order. -/
def applyShapeCalls (q : ViewQuery) (cs : List ShapeCall) : ViewQuery :=
  cs.foldl applyShapeCall q

/-! Documents.  A document payload is split into its two reserved fields and
an opaque body; the object spreads of the source (`{...doc, _id: id}` and
`const {_rev, ...rest} = doc`) distribute over this partition.  Revision
tokens (Deno KV versionstamps) are modelled as naturals assigned from a
monotone counter; only their equality is ever used. -/

/-- A document payload: optional `_id`, optional `_rev`, opaque body. -/
structure MaybeDoc (β : Type) where
  id? : Option String
  rev? : Option Nat
  body : β
deriving DecidableEq, Repr

/-- The key argument of `emit`: a single part or an array of parts
(`Array.isArray(key) ? key : [key]`). -/
inductive ViewEmitKey where
  | single (k : KvPart)
  | multi (ks : List KvPart)
deriving DecidableEq, Repr

/-- The part list of an emit key. -/
def ViewEmitKey.parts : ViewEmitKey → List KvPart
  | ViewEmitKey.single k => [k]
  | ViewEmitKey.multi ks => ks

/-- One `emit(key, value?)` invocation recorded by a map function; `value`
is `none` when omitted (the source stores `value ?? null`). -/
structure EmitCall (υ : Type) where
  key : ViewEmitKey
  value : Option υ
deriving DecidableEq, Repr

/-- A map function, as the finite sequence of emit calls it performs on a
document. -/
abbrev MapFn (β υ : Type) := MaybeDoc β → List (EmitCall υ)

/-- A map function together with its textual form (`fn.toString()`), which
is what `#hashFunction` digests. -/
structure MapFunction (β υ : Type) where
  src : String
  fn : MapFn β υ

/-- A registered view: map function and optional reduce function. -/
structure ViewLogic (β υ ρ : Type) where
  map : MapFunction β υ
  reduce : Option ρ

/-- A persisted view row `{value, doc}`. -/
structure ViewRow (β υ : Type) where
  value : Option υ
  doc : MaybeDoc β
deriving DecidableEq, Repr

/-- The state of a design record. -/
inductive ViewSt where
  | building
  | ready
deriving DecidableEq, Repr

/-- A persisted design record `{signature, state}`. -/
structure ViewState where
  signature : String
  state : ViewSt
deriving DecidableEq, Repr

/-- The persistent KV state, split by the four disjoint key classes of the
layout (`doc`, `view`, `viewref`, `design`): documents keyed by id carry
their versionstamp, view rows are keyed by full composite key, back-refs by
view name and doc id, design records by view name.  `next` is the next
versionstamp the store will assign. -/
structure DB (β υ : Type) where
  docs : String → Option (MaybeDoc β × Nat)
  rows : KvKey → Option (ViewRow β υ)
  refs : String → String → Option (List KvKey)
  design : String → Option ViewState
  next : Nat

/-- The empty store. -/
def emptyDB {β υ : Type} : DB β υ :=
  ⟨fun _ => none, fun _ => none, fun _ _ => none, fun _ => none, 0⟩

/-- A Cushion instance: namespace and the in-memory view registry (a JS
Map, modelled as an insertion-ordered association list). -/
structure Cushion (β υ ρ : Type) where
  ns : String
  views : List (String × ViewLogic β υ ρ)

/-- `Map.prototype.set`: replace in place if the key is present, else
append. -/
def mapSet {α : Type} (l : List (String × α)) (k : String) (v : α) :
    List (String × α) :=
  if l.any (fun p => p.1 == k) then
    l.map (fun p => if p.1 == k then (k, v) else p)
  else l ++ [(k, v)]

/-- The result record of `insert`/`replace`. -/
structure InsertResult where
  ok : Bool
  id : String
  rev : Nat
deriving DecidableEq, Repr

/-- The composite keys and row payloads produced by one run of a map
function over a document, mirroring the `emit` closures: each emit call
contributes the key `viewPrefix ++ keyParts ++ [docId]` with payload
`{value: value ?? null, doc}`. -/
def emittedRows {β υ : Type} (ns viewName : String) (m : MapFn β υ)
    (docId : String) (doc : MaybeDoc β) : List (KvKey × ViewRow β υ) :=
  (m doc).map fun e =>
    (getViewKey ns viewName ++ e.key.parts ++ [KvPart.s docId], ⟨e.value, doc⟩)

/-- Last-wins lookup in a list of row writes (an atomic batch applies its
set operations in order). -/
def writesLookup {β υ : Type} (ws : List (KvKey × ViewRow β υ)) (k : KvKey) :
    Option (ViewRow β υ) :=
  match ws with
  | [] => none
  | p :: t =>
    match writesLookup t k with
    | some r => some r
    | none => if p.1 = k then some p.2 else none

/-- Apply a list of row set operations in order to the row store. -/
def setRows {β υ : Type} (rows : KvKey → Option (ViewRow β υ))
    (ws : List (KvKey × ViewRow β υ)) : KvKey → Option (ViewRow β υ) :=
  ws.foldl (fun r p => fun k => if k = p.1 then some p.2 else r k) rows

/-- Delete a list of keys from the row store. -/
def delKeys {β υ : Type} (rows : KvKey → Option (ViewRow β υ))
    (ks : List KvKey) : KvKey → Option (ViewRow β υ) :=
  fun k => if k ∈ ks then none else rows k

/-- The single-view body of `updateViewsForDoc`: one atomic batch that
deletes the keys named by the back-ref, then (for a live document) re-emits
rows and rewrites the back-ref, or (for a removed document) deletes the
back-ref. -/
def updateViewForDoc {β υ : Type} (ns viewName : String) (m : MapFn β υ)
    (docId : String) (doc? : Option (MaybeDoc β)) (db : DB β υ) : DB β υ :=
  let oldKeys := (db.refs viewName docId).getD []
  let rows1 := delKeys db.rows oldKeys
  match doc? with
  | none =>
      { db with rows := rows1,
                refs := fun v d =>
                  if v = viewName ∧ d = docId then none else db.refs v d }
  | some doc =>
      let ws := emittedRows ns viewName m docId doc
      { db with rows := setRows rows1 ws,
                refs := fun v d =>
                  if v = viewName ∧ d = docId then some (ws.map Prod.fst)
                  else db.refs v d }

/-- `updateViewsForDoc(docId, doc)`: update every registered view in
registry order. -/
def updateViewsForDoc {β υ ρ : Type} (ns : String)
    (views : List (String × ViewLogic β υ ρ)) (docId : String)
    (doc? : Option (MaybeDoc β)) (db : DB β υ) : DB β υ :=
  views.foldl (fun acc v => updateViewForDoc ns v.1 v.2.map.fn docId doc? acc) db

/-- `doc._id || crypto.randomUUID()`: the empty string is the only falsy
string, `fresh` stands for the generated UUID. -/
def resolveId {β : Type} (doc : MaybeDoc β) (fresh : String) : String :=
  match doc.id? with
  | some s => if s = "" then fresh else s
  | none => fresh

/-- The document value a reader observes and the one incremental
maintenance hands to map functions: the stored value with `_rev` set to the
versionstamp. -/
def withRev {β : Type} (e : MaybeDoc β × Nat) : MaybeDoc β :=
  { e.1 with rev? := some e.2 }

/-- `get(id)`: the stored value augmented with `_rev`, or null. -/
def Cushion.get {β υ ρ : Type} (_c : Cushion β υ ρ) (id : String)
    (db : DB β υ) : Option (MaybeDoc β) :=
  (db.docs id).map withRev

/-- `insert(doc)`: reject a payload carrying `_rev`; atomically create the
document only if absent; then update every view with the stored value plus
the new `_rev`. -/
def Cushion.insert {β υ ρ : Type} (c : Cushion β υ ρ) (fresh : String)
    (doc : MaybeDoc β) (db : DB β υ) : Except Err (InsertResult × DB β υ) :=
  let id := resolveId doc fresh
  if doc.rev?.isSome then Except.error Err.unexpectedRev
  else
    match db.docs id with
    | some _ => Except.error Err.duplicateDocument
    | none =>
      let initialiser : MaybeDoc β := { doc with id? := some id }
      let stamp := db.next
      let db1 : DB β υ :=
        { db with
            docs := fun d => if d = id then some (initialiser, stamp) else db.docs d,
            next := db.next + 1 }
      let db2 := updateViewsForDoc c.ns c.views id (some (withRev (initialiser, stamp))) db1
      Except.ok (⟨true, id, stamp⟩, db2)

/-- `replace(id, rev, doc)`: strip `_rev`, force `_id`; atomically write
only if the current versionstamp equals `rev`; then update every view. -/
def Cushion.replace {β υ ρ : Type} (c : Cushion β υ ρ) (id : String)
    (rev : Nat) (doc : MaybeDoc β) (db : DB β υ) :
    Except Err (InsertResult × DB β υ) :=
  let updated : MaybeDoc β := ⟨some id, none, doc.body⟩
  match db.docs id with
  | some e =>
      if e.2 = rev then
        let stamp := db.next
        let db1 : DB β υ :=
          { db with
              docs := fun d => if d = id then some (updated, stamp) else db.docs d,
              next := db.next + 1 }
        let db2 := updateViewsForDoc c.ns c.views id (some (withRev (updated, stamp))) db1
        Except.ok (⟨true, id, stamp⟩, db2)
      else Except.error Err.revisionConflict
  | none => Except.error Err.revisionConflict

/-- `remove(id, rev)`: atomically delete only if the current versionstamp
equals `rev`; then update every view with a null document. -/
def Cushion.remove {β υ ρ : Type} (c : Cushion β υ ρ) (id : String)
    (rev : Nat) (db : DB β υ) : Except Err (DB β υ) :=
  match db.docs id with
  | some e =>
      if e.2 = rev then
        let db1 : DB β υ :=
          { db with docs := fun d => if d = id then none else db.docs d }
        Except.ok (updateViewsForDoc c.ns c.views id none db1)
      else Except.error Err.revisionConflict
  | none => Except.error Err.revisionConflict

/-- One document mutation, with the nondeterministic UUID of `insert`
resolved as an explicit input. -/
inductive DocOp (β : Type) where
  | insert (fresh : String) (doc : MaybeDoc β)
  | replace (id : String) (rev : Nat) (doc : MaybeDoc β)
  | remove (id : String) (rev : Nat)

/-- Apply one mutation; a thrown error leaves the store unchanged (the
source throws either before any write or after a failed atomic commit). -/
def applyDocOp {β υ ρ : Type} (c : Cushion β υ ρ) (db : DB β υ) :
    DocOp β → DB β υ
  | DocOp.insert fresh doc =>
      match c.insert fresh doc db with
      | Except.ok p => p.2
      | Except.error _ => db
  | DocOp.replace id rev doc =>
      match c.replace id rev doc db with
      | Except.ok p => p.2
      | Except.error _ => db
  | DocOp.remove id rev =>
      match c.remove id rev db with
      | Except.ok db2 => db2
      | Except.error _ => db

/-- Apply a sequence of mutations in order. -/
def applyDocOps {β υ ρ : Type} (c : Cushion β υ ρ) (db : DB β υ)
    (ops : List (DocOp β)) : DB β υ :=
  ops.foldl (applyDocOp c) db

/-- The `InsertResult` of an `insert` call, if it succeeds. -/
def insertResult? {β υ ρ : Type} (c : Cushion β υ ρ) (fresh : String)
    (doc : MaybeDoc β) (db : DB β υ) : Option InsertResult :=
  match c.insert fresh doc db with
  | Except.ok p => some p.1
  | Except.error _ => none

/-- The `InsertResult` of a `replace` call, if it succeeds. -/
def replaceResult? {β υ ρ : Type} (c : Cushion β υ ρ) (id : String)
    (rev : Nat) (doc : MaybeDoc β) (db : DB β υ) : Option InsertResult :=
  match c.replace id rev doc db with
  | Except.ok p => some p.1
  | Except.error _ => none

/-! Rebuild and defineView, from src/cushion.ts.  A rebuild is a sequence
of primitive KV mutations issued in batched atomic commits; batching does
not affect which mutations are issued or their order, so the rebuild is
modelled as the ordered list of its mutations.  The iteration of existing
view rows, back-refs and documents that `kv.list` performs is supplied as
explicit inputs (`rowKeys`, `refDocIds`, `docList`). -/

/-- A primitive KV mutation issued by a rebuild. -/
inductive KvOp (β υ : Type) where
  | delRow (k : KvKey)
  | delRef (viewName docId : String)
  | setRow (k : KvKey) (r : ViewRow β υ)
  | setRef (viewName docId : String) (ks : List KvKey)
  | setDesign (viewName : String) (st : ViewState)
deriving DecidableEq, Repr

/-- Apply one primitive KV mutation. -/
def applyKvOp {β υ : Type} (db : DB β υ) : KvOp β υ → DB β υ
  | KvOp.delRow k =>
      { db with rows := fun k2 => if k2 = k then none else db.rows k2 }
  | KvOp.delRef v d =>
      { db with refs := fun v2 d2 =>
          if v2 = v ∧ d2 = d then none else db.refs v2 d2 }
  | KvOp.setRow k r =>
      { db with rows := fun k2 => if k2 = k then some r else db.rows k2 }
  | KvOp.setRef v d ks =>
      { db with refs := fun v2 d2 =>
          if v2 = v ∧ d2 = d then some ks else db.refs v2 d2 }
  | KvOp.setDesign v st =>
      { db with design := fun v2 => if v2 = v then some st else db.design v2 }

/-- Apply a list of primitive KV mutations in order. -/
def applyKvOps {β υ : Type} (db : DB β υ) (ops : List (KvOp β υ)) : DB β υ :=
  ops.foldl applyKvOp db

/-- The mutations of a rebuild before the final design write: delete every
enumerated view row and back-ref, then for each document in the namespace
emit rows and write the back-ref.  Documents are handed to the map function
exactly as stored (no `_rev` is added). -/
def rebuildDocOps {β υ : Type} (ns viewName : String) (m : MapFn β υ)
    (doc : MaybeDoc β) : List (KvOp β υ) :=
  (emittedRows ns viewName m ((doc.id?).getD ("")) doc).map
      (fun p => KvOp.setRow p.1 p.2) ++
    [KvOp.setRef viewName ((doc.id?).getD (""))
      ((emittedRows ns viewName m ((doc.id?).getD ("")) doc).map Prod.fst)]

def rebuildBodyOps {β υ : Type} (ns viewName : String) (m : MapFn β υ)
    (rowKeys : List KvKey) (refDocIds : List String)
    (docList : List (MaybeDoc β)) : List (KvOp β υ) :=
  rowKeys.map KvOp.delRow ++
  refDocIds.map (KvOp.delRef viewName) ++
  docList.flatMap (rebuildDocOps ns viewName m)

/-- All mutations of `rebuildView`, ending with the design record write
`{signature, state: "ready"}`. -/
def rebuildOps {β υ : Type} (ns viewName : String) (m : MapFn β υ)
    (signature : String) (rowKeys : List KvKey) (refDocIds : List String)
    (docList : List (MaybeDoc β)) : List (KvOp β υ) :=
  rebuildBodyOps ns viewName m rowKeys refDocIds docList ++
    [KvOp.setDesign viewName ⟨signature, ViewSt.ready⟩]

/-- The net effect of `rebuildView` on the store. -/
def rebuildView {β υ : Type} (ns viewName : String) (m : MapFn β υ)
    (signature : String) (rowKeys : List KvKey) (refDocIds : List String)
    (docList : List (MaybeDoc β)) (db : DB β υ) : DB β υ :=
  applyKvOps db (rebuildOps ns viewName m signature rowKeys refDocIds docList)

/-- `defineView(viewName, mapper, reducer?)`: register the logic, hash the
mapper's text with `H` (SHA-256 in the source), then skip the rebuild when
the persisted signature is current or the record says a build is in
progress; otherwise rebuild.  The returned boolean records whether a
rebuild ran. -/
def Cushion.defineView {β υ ρ : Type} (c : Cushion β υ ρ)
    (H : String → String) (viewName : String) (mapper : MapFunction β υ)
    (reducer : Option ρ) (rowKeys : List KvKey) (refDocIds : List String)
    (docList : List (MaybeDoc β)) (db : DB β υ) :
    Cushion β υ ρ × DB β υ × Bool :=
  let c' : Cushion β υ ρ :=
    { c with views := mapSet c.views viewName ⟨mapper, reducer⟩ }
  let sig := H mapper.src
  match db.design viewName with
  | some vs =>
      if vs.signature = sig then (c', db, false)
      else if vs.state = ViewSt.building then (c', db, false)
      else (c', rebuildView c.ns viewName mapper.fn sig rowKeys refDocIds docList db, true)
  | none => (c', rebuildView c.ns viewName mapper.fn sig rowKeys refDocIds docList db, true)

/-! The view-consistency invariant behind claim C1. -/

/-- The rows view `V` owes to a live document entry: its map function run
over the document as a reader observes it (stored value plus `_rev`). -/
def liveRows {β υ : Type} (ns V : String) (m : MapFn β υ) (id : String)
    (e : MaybeDoc β × Nat) : List (KvKey × ViewRow β υ) :=
  emittedRows ns V m id (withRev e)

/-- The row a consistent store holds at a composite key under view `V`'s
prefix: the trailing key part names the owning document; a live owner
contributes its last-wins emitted row, anything else nothing. -/
def expectedRowAt {β υ : Type} (ns V : String) (m : MapFn β υ)
    (docs : String → Option (MaybeDoc β × Nat)) (k : KvKey) :
    Option (ViewRow β υ) :=
  match k.getLast? with
  | some (KvPart.s id) =>
      match docs id with
      | some e => writesLookup (liveRows ns V m id e) k
      | none => none
  | _ => none

/-- Rows part of the invariant: every key under `V`'s row prefix holds
exactly what the live documents produce. -/
def viewRowsInv {β υ : Type} (ns V : String) (m : MapFn β υ) (db : DB β υ) : Prop :=
  ∀ k : KvKey, getViewKey ns V <+: k → db.rows k = expectedRowAt ns V m db.docs k

/-- Back-ref part of the invariant: the back-ref of a live document lists
its emitted composite keys, and removed or absent documents have none. -/
def viewRefsInv {β υ : Type} (ns V : String) (m : MapFn β υ) (db : DB β υ) : Prop :=
  ∀ id : String,
    db.refs V id = (db.docs id).map fun e => (liveRows ns V m id e).map Prod.fst

/-- The two parts together. -/
def viewInv {β υ : Type} (ns V : String) (m : MapFn β υ) (db : DB β υ) : Prop :=
  viewRowsInv ns V m db ∧ viewRefsInv ns V m db

/-- Global hygiene: every key a back-ref names lies under its own view's
row prefix and ends with its own document id.  (Every back-ref the code
writes has this shape; it keeps distinct views from touching each other's
rows.) -/
def refsWellScoped {β υ : Type} (ns : String) (db : DB β υ) : Prop :=
  ∀ V id ks, db.refs V id = some ks →
    ∀ k ∈ ks, getViewKey ns V <+: k ∧ k.getLast? = some (KvPart.s id)

/-- Mid-update state for view `V` and document `id`: away from `id` the
invariant already holds against the new document table, while the rows and
back-ref of `id` still reflect `old`, the entry the document had before the
commit. -/
def midInv {β υ : Type} (ns V : String) (m : MapFn β υ) (id : String)
    (old : Option (MaybeDoc β × Nat)) (db : DB β υ) : Prop :=
  (∀ k : KvKey, getViewKey ns V <+: k → k.getLast? ≠ some (KvPart.s id) →
      db.rows k = expectedRowAt ns V m db.docs k) ∧
  (∀ k : KvKey, getViewKey ns V <+: k → k.getLast? = some (KvPart.s id) →
      db.rows k = (match old with
        | some e => writesLookup (liveRows ns V m id e) k
        | none => none)) ∧
  (∀ d : String, d ≠ id →
      db.refs V d = (db.docs d).map fun e => (liveRows ns V m d e).map Prod.fst) ∧
  db.refs V id = old.map (fun e => (liveRows ns V m id e).map Prod.fst)

/-! Small concrete fixtures used to instantiate the theorems. -/

/-- A view mapping every document to one emit of the key "k". -/
def unitView : ViewLogic Unit Unit Unit :=
  ⟨⟨"srcv", fun _ => [⟨ViewEmitKey.single (KvPart.s ("k")), none⟩]⟩, none⟩

/-- A Cushion on namespace "n" with the single view "v". -/
def sampleCushion : Cushion Unit Unit Unit := ⟨"n", [(("v" : String), unitView)]⟩

/-- A document payload with `_id` "a" and no `_rev`. -/
def sampleDoc : MaybeDoc Unit := ⟨some ("a"), none, ()⟩

/-- A store holding the single document "a" at versionstamp 3, with
counter 7. -/
def sampleDB : DB Unit Unit :=
  ⟨fun d => if d = "a" then some (sampleDoc, 3) else none,
   fun _ => none, fun _ _ => none, fun _ => none, 7⟩

/-! Helper lemmas about the write primitives and key shapes. -/

theorem writesLookup_eq_none_iff {β υ : Type} (ws : List (KvKey × ViewRow β υ))
    (k : KvKey) : writesLookup ws k = none ↔ k ∉ ws.map Prod.fst := by
  induction ws with
  | nil => simp [writesLookup]
  | cons p t ih =>
    simp only [writesLookup, List.map_cons, List.mem_cons]
    cases h : writesLookup t k with
    | some r =>
      have h1 : ¬ writesLookup t k = none := by simp [h]
      have hmem : k ∈ t.map Prod.fst := by
        by_contra hk
        exact h1 (ih.mpr hk)
      simp [hmem]
    | none =>
      have hnm : k ∉ t.map Prod.fst := ih.mp h
      by_cases hpk : p.1 = k
      · subst hpk
        simp [hnm]
      · have hkp : ¬ k = p.1 := fun h' => hpk h'.symm
        simp [hpk, hkp, hnm]

theorem writesLookup_isSome_iff {β υ : Type} (ws : List (KvKey × ViewRow β υ))
    (k : KvKey) : (writesLookup ws k).isSome = true ↔ k ∈ ws.map Prod.fst := by
  rw [← Option.ne_none_iff_isSome]
  simp only [ne_eq, writesLookup_eq_none_iff, not_not]

theorem setRows_apply {β υ : Type} (ws : List (KvKey × ViewRow β υ)) :
    ∀ (rows : KvKey → Option (ViewRow β υ)) (k : KvKey),
      setRows rows ws k =
        match writesLookup ws k with
        | some r => some r
        | none => rows k := by
  induction ws with
  | nil => intro rows k; rfl
  | cons p t ih =>
    intro rows k
    show setRows (fun k2 => if k2 = p.1 then some p.2 else rows k2) t k = _
    rw [ih]
    cases h : writesLookup t k with
    | some r => simp [writesLookup, h]
    | none =>
      by_cases hk : p.1 = k
      · simp [writesLookup, h, hk]
      · have hk2 : ¬ k = p.1 := fun h' => hk h'.symm
        simp [writesLookup, h, hk, hk2]

theorem emittedRows_shape {β υ : Type} {ns V : String} {m : MapFn β υ}
    {id : String} {doc : MaybeDoc β} {k : KvKey} {r : ViewRow β υ}
    (h : (k, r) ∈ emittedRows ns V m id doc) :
    getViewKey ns V <+: k ∧ k.getLast? = some (KvPart.s id) ∧ r.doc = doc := by
  simp only [emittedRows, List.mem_map] at h
  obtain ⟨e, _he, heq⟩ := h
  cases heq
  refine ⟨?_, ?_, rfl⟩
  · rw [List.append_assoc]
    exact List.prefix_append _ _
  · exact List.getLast?_concat _

theorem emittedRows_key_shape {β υ : Type} {ns V : String} {m : MapFn β υ}
    {id : String} {doc : MaybeDoc β} {k : KvKey}
    (h : k ∈ (emittedRows ns V m id doc).map Prod.fst) :
    getViewKey ns V <+: k ∧ k.getLast? = some (KvPart.s id) := by
  simp only [List.mem_map] at h
  obtain ⟨p, hp, rfl⟩ := h
  have := @emittedRows_shape β υ ns V m id doc p.1 p.2 (by simpa using hp)
  exact ⟨this.1, this.2.1⟩

theorem viewKey_prefix_inj {ns V V' : String} {k : KvKey}
    (h1 : getViewKey ns V <+: k) (h2 : getViewKey ns V' <+: k) : V = V' := by
  obtain ⟨t1, e1⟩ := h1
  obtain ⟨t2, e2⟩ := h2
  have he := e1.trans e2.symm
  have h3 := List.append_inj_left he (by simp [getViewKey])
  simp only [getViewKey, List.cons.injEq, KvPart.s.injEq] at h3
  exact h3.2.2.1

theorem updateViewForDoc_docs {β υ : Type} (ns V : String) (m : MapFn β υ)
    (id : String) (doc? : Option (MaybeDoc β)) (db : DB β υ) :
    (updateViewForDoc ns V m id doc? db).docs = db.docs := by
  cases doc? <;> rfl

theorem updateViewForDoc_next {β υ : Type} (ns V : String) (m : MapFn β υ)
    (id : String) (doc? : Option (MaybeDoc β)) (db : DB β υ) :
    (updateViewForDoc ns V m id doc? db).next = db.next := by
  cases doc? <;> rfl

theorem updateViewForDoc_design {β υ : Type} (ns V : String) (m : MapFn β υ)
    (id : String) (doc? : Option (MaybeDoc β)) (db : DB β υ) :
    (updateViewForDoc ns V m id doc? db).design = db.design := by
  cases doc? <;> rfl

theorem updateViewsForDoc_docs {β υ ρ : Type} (ns : String)
    (views : List (String × ViewLogic β υ ρ)) (id : String)
    (doc? : Option (MaybeDoc β)) :
    ∀ db : DB β υ, (updateViewsForDoc ns views id doc? db).docs = db.docs := by
  induction views with
  | nil => intro db; rfl
  | cons v t ih =>
    intro db
    show (updateViewsForDoc ns t id doc?
      (updateViewForDoc ns v.1 v.2.map.fn id doc? db)).docs = _
    rw [ih, updateViewForDoc_docs]

theorem updateViewsForDoc_next {β υ ρ : Type} (ns : String)
    (views : List (String × ViewLogic β υ ρ)) (id : String)
    (doc? : Option (MaybeDoc β)) :
    ∀ db : DB β υ, (updateViewsForDoc ns views id doc? db).next = db.next := by
  induction views with
  | nil => intro db; rfl
  | cons v t ih =>
    intro db
    show (updateViewsForDoc ns t id doc?
      (updateViewForDoc ns v.1 v.2.map.fn id doc? db)).next = _
    rw [ih, updateViewForDoc_next]

theorem updateViewsForDoc_design {β υ ρ : Type} (ns : String)
    (views : List (String × ViewLogic β υ ρ)) (id : String)
    (doc? : Option (MaybeDoc β)) :
    ∀ db : DB β υ, (updateViewsForDoc ns views id doc? db).design = db.design := by
  induction views with
  | nil => intro db; rfl
  | cons v t ih =>
    intro db
    show (updateViewsForDoc ns t id doc?
      (updateViewForDoc ns v.1 v.2.map.fn id doc? db)).design = _
    rw [ih, updateViewForDoc_design]

/-! Field evolution of the builder under shape-setting calls: each of the
four setters only ever sets its own slot, so a slot is occupied exactly
when some call set it. -/

theorem applyShapeCalls_key_isSome (cs : List ShapeCall) :
    ∀ q : ViewQuery, ((applyShapeCalls q cs).key?).isSome =
      (q.key?.isSome || cs.any ShapeCall.isKey) := by
  induction cs with
  | nil => intro q; simp [applyShapeCalls]
  | cons c t ih =>
    intro q
    show ((applyShapeCalls (applyShapeCall q c) t).key?).isSome = _
    rw [ih]
    cases c <;> simp [applyShapeCall, ViewQuery.key, ViewQuery.keys,
      ViewQuery.pfx, ViewQuery.range, ShapeCall.isKey, Bool.or_assoc]

theorem applyShapeCalls_keys_isSome (cs : List ShapeCall) :
    ∀ q : ViewQuery, ((applyShapeCalls q cs).keys?).isSome =
      (q.keys?.isSome || cs.any ShapeCall.isKeys) := by
  induction cs with
  | nil => intro q; simp [applyShapeCalls]
  | cons c t ih =>
    intro q
    show ((applyShapeCalls (applyShapeCall q c) t).keys?).isSome = _
    rw [ih]
    cases c <;> simp [applyShapeCall, ViewQuery.key, ViewQuery.keys,
      ViewQuery.pfx, ViewQuery.range, ShapeCall.isKeys, Bool.or_assoc]

theorem applyShapeCalls_pfx_isSome (cs : List ShapeCall) :
    ∀ q : ViewQuery, ((applyShapeCalls q cs).pfx?).isSome =
      (q.pfx?.isSome || cs.any ShapeCall.isPfx) := by
  induction cs with
  | nil => intro q; simp [applyShapeCalls]
  | cons c t ih =>
    intro q
    show ((applyShapeCalls (applyShapeCall q c) t).pfx?).isSome = _
    rw [ih]
    cases c <;> simp [applyShapeCall, ViewQuery.key, ViewQuery.keys,
      ViewQuery.pfx, ViewQuery.range, ShapeCall.isPfx, Bool.or_assoc]

theorem applyShapeCalls_start_isSome (cs : List ShapeCall) :
    ∀ q : ViewQuery, ((applyShapeCalls q cs).startKey?).isSome =
      (q.startKey?.isSome || cs.any ShapeCall.isRange) := by
  induction cs with
  | nil => intro q; simp [applyShapeCalls]
  | cons c t ih =>
    intro q
    show ((applyShapeCalls (applyShapeCall q c) t).startKey?).isSome = _
    rw [ih]
    cases c <;> simp [applyShapeCall, ViewQuery.key, ViewQuery.keys,
      ViewQuery.pfx, ViewQuery.range, ShapeCall.isRange, Bool.or_assoc]

theorem applyShapeCalls_end_isSome (cs : List ShapeCall) :
    ∀ q : ViewQuery, ((applyShapeCalls q cs).endKey?).isSome =
      (q.endKey?.isSome || cs.any ShapeCall.isRange) := by
  induction cs with
  | nil => intro q; simp [applyShapeCalls]
  | cons c t ih =>
    intro q
    show ((applyShapeCalls (applyShapeCall q c) t).endKey?).isSome = _
    rw [ih]
    cases c <;> simp [applyShapeCall, ViewQuery.key, ViewQuery.keys,
      ViewQuery.pfx, ViewQuery.range, ShapeCall.isRange, Bool.or_assoc]

/-- C2: for every builder constructed by any interleaving of key, keys,
prefix and range calls, getParams returns the highest-precedence shape that
was ever set: key, then keys, then prefix, then range (both bounds come
from a single range call), else scan — regardless of call order. -/
theorem getParams_shape_precedence (name : String) (cs : List ShapeCall) :
    ((applyShapeCalls (ViewQuery.forName name) cs).getParams).shape.typeName =
      (if cs.any ShapeCall.isKey then "key"
       else if cs.any ShapeCall.isKeys then "keys"
       else if cs.any ShapeCall.isPfx then "prefix"
       else if cs.any ShapeCall.isRange then "range"
       else "scan") := by
  have hk := applyShapeCalls_key_isSome cs (ViewQuery.forName name)
  have hks := applyShapeCalls_keys_isSome cs (ViewQuery.forName name)
  have hp := applyShapeCalls_pfx_isSome cs (ViewQuery.forName name)
  have hs := applyShapeCalls_start_isSome cs (ViewQuery.forName name)
  have he := applyShapeCalls_end_isSome cs (ViewQuery.forName name)
  rw [show (ViewQuery.forName name).key? = none from rfl] at hk
  rw [show (ViewQuery.forName name).keys? = none from rfl] at hks
  rw [show (ViewQuery.forName name).pfx? = none from rfl] at hp
  rw [show (ViewQuery.forName name).startKey? = none from rfl] at hs
  rw [show (ViewQuery.forName name).endKey? = none from rfl] at he
  simp only [Option.isSome_none, Bool.false_or] at hk hks hp hs he
  set q := applyShapeCalls (ViewQuery.forName name) cs with hq
  clear_value q
  cases h1 : cs.any ShapeCall.isKey with
  | true =>
    rw [h1] at hk
    obtain ⟨k, hkk⟩ := Option.isSome_iff_exists.mp hk
    simp [ViewQuery.getParams, hkk, ParamsShape.typeName]
  | false =>
    rw [h1] at hk
    have hknone : q.key? = none := by
      cases hqk : q.key? with
      | none => rfl
      | some v => rw [hqk] at hk; simp at hk
    cases h2 : cs.any ShapeCall.isKeys with
    | true =>
      rw [h2] at hks
      obtain ⟨ks, hkks⟩ := Option.isSome_iff_exists.mp hks
      simp [ViewQuery.getParams, hknone, hkks, ParamsShape.typeName]
    | false =>
      rw [h2] at hks
      have hksnone : q.keys? = none := by
        cases hqk : q.keys? with
        | none => rfl
        | some v => rw [hqk] at hks; simp at hks
      cases h3 : cs.any ShapeCall.isPfx with
      | true =>
        rw [h3] at hp
        obtain ⟨p, hpp⟩ := Option.isSome_iff_exists.mp hp
        simp [ViewQuery.getParams, hknone, hksnone, hpp, ParamsShape.typeName]
      | false =>
        rw [h3] at hp
        have hpnone : q.pfx? = none := by
          cases hqp : q.pfx? with
          | none => rfl
          | some v => rw [hqp] at hp; simp at hp
        cases h4 : cs.any ShapeCall.isRange with
        | true =>
          rw [h4] at hs he
          obtain ⟨s, hss⟩ := Option.isSome_iff_exists.mp hs
          obtain ⟨e, hee⟩ := Option.isSome_iff_exists.mp he
          simp [ViewQuery.getParams, hknone, hksnone, hpnone, hss, hee,
            ParamsShape.typeName]
        | false =>
          rw [h4] at hs
          have hsnone : q.startKey? = none := by
            cases hqs : q.startKey? with
            | none => rfl
            | some v => rw [hqs] at hs; simp at hs
          simp [ViewQuery.getParams, hknone, hksnone, hpnone, hsnone,
            ParamsShape.typeName]

/-! Arithmetic facts about the ToInt32 conversion. -/

theorem ecmaToInt32_of_lt {t : Int} (h0 : 0 ≤ t) (h1 : t < 2147483648) :
    ecmaToInt32 t = t := by
  unfold ecmaToInt32
  have hm : t % 4294967296 = t := Int.emod_eq_of_lt h0 (by omega)
  simp only [hm]
  simp [h1]

theorem ratTrunc_eq_floor {x : ℚ} (h : 0 ≤ x) : ratTrunc x = ⌊x⌋ := by
  rw [Rat.floor_def]
  exact Int.tdiv_eq_ediv (by exact_mod_cast Rat.num_nonneg.mpr h) (by positivity)

theorem jsToInt32_max0_nonpos {x : ℚ} (h : x ≤ 0) :
    jsToInt32 (jsMax0 (JsNum.fin x)) = 0 := by
  have hmax : max 0 x = 0 := max_eq_left h
  show ecmaToInt32 (ratTrunc (max 0 x)) = 0
  rw [hmax]
  rfl

theorem jsToInt32_max0_small {x : ℚ} (h0 : 0 ≤ x) (h1 : x < 2147483648) :
    jsToInt32 (jsMax0 (JsNum.fin x)) = ⌊x⌋ := by
  have hmax : max 0 x = x := max_eq_right h0
  show ecmaToInt32 (ratTrunc (max 0 x)) = ⌊x⌋
  rw [hmax, ratTrunc_eq_floor h0]
  exact ecmaToInt32_of_lt (Int.floor_nonneg.mpr h0)
    (Int.floor_lt.mpr (by exact_mod_cast h1))

/-- C6 counterexample: `skip(2**31)` stores `-2**31`, not the claimed
"2**31 clamped below at zero and truncated toward zero" — the `~~` idiom is
ECMAScript ToInt32, which wraps modulo 2^32. -/
theorem skip_toInt32_wrap_cex :
    ((ViewQuery.forName ("v")).skip (JsNum.fin 2147483648)).skipVal
        = JsNum.fin (-2147483648)
    ∧ JsNum.fin (-2147483648) ≠ JsNum.fin ((2147483648 : ℚ)) := by
  constructor
  · decide
  · decide

/-- C6 (amended): `skip(n)` and `limit(n)` store ToInt32(max(0, n)).  For
finite n ≤ 0 and for NaN the stored value is 0; for finite 0 ≤ n < 2^31 it
is n truncated toward zero (equivalently ⌊n⌋); beyond 2^31 the int32 wrap
applies. -/
theorem skip_limit_clamp_truncate (q : ViewQuery) :
    (∀ n : JsNum, ((q.skip n).skipVal = JsNum.fin ((jsToInt32 (jsMax0 n) : ℚ)))
        ∧ ((q.limit n).limitVal = JsNum.fin ((jsToInt32 (jsMax0 n) : ℚ)))) ∧
    (∀ x : ℚ, x ≤ 0 → jsToInt32 (jsMax0 (JsNum.fin x)) = 0) ∧
    (∀ x : ℚ, 0 ≤ x → x < 2147483648 →
        jsToInt32 (jsMax0 (JsNum.fin x)) = ⌊x⌋ ∧ ratTrunc x = ⌊x⌋) ∧
    jsToInt32 (jsMax0 JsNum.nan) = 0 := by
  refine ⟨fun n => ⟨rfl, rfl⟩, fun x h => jsToInt32_max0_nonpos h, ?_, rfl⟩
  intro x h0 h1
  exact ⟨jsToInt32_max0_small h0 h1, ratTrunc_eq_floor h0⟩

theorem skip_limit_clamp_truncate_witness :
    ((-5 : ℚ) ≤ 0 ∧ jsToInt32 (jsMax0 (JsNum.fin (-5))) = 0) ∧
    ((0 : ℚ) ≤ 5 ∧ (5 : ℚ) < 2147483648 ∧
      jsToInt32 (jsMax0 (JsNum.fin 5)) = ⌊(5 : ℚ)⌋ ∧
      ratTrunc 5 = ⌊(5 : ℚ)⌋) :=
  ⟨⟨by decide,
      (skip_limit_clamp_truncate (ViewQuery.forName ("w"))).2.1 (-5) (by decide)⟩,
   ⟨by decide, by decide,
      ((skip_limit_clamp_truncate (ViewQuery.forName ("w"))).2.2.1 5
        (by decide) (by decide)).1,
      ((skip_limit_clamp_truncate (ViewQuery.forName ("w"))).2.2.1 5
        (by decide) (by decide)).2⟩⟩

/-- C4 counterexample: `group(2**31)` sets groupLevel to `-2**31`, not to
`floor(2**31)`: `~~` is ToInt32 and wraps modulo 2^32. -/
theorem group_toInt32_wrap_cex :
    (ViewQuery.forName ("v")).group (GroupArg.num (JsNum.fin 2147483648)) =
      Except.ok { ViewQuery.forName ("v") with
                    reduceFlag := true, groupLevel? := some (-2147483648) }
    ∧ (-2147483648 : Int) ≠ ⌊(2147483648 : ℚ)⌋ := by
  constructor
  · rfl
  · rw [show ⌊(2147483648 : ℚ)⌋ = 2147483648 by norm_num]
    decide

/-- C4 (amended): `group(true)` and `group(0)` enable reduce with
groupLevel 0; `group(false)` clears groupLevel without touching reduce; a
number greater than 0 enables reduce and stores ToInt32 of it, which equals
⌊x⌋ for x < 2^31 (so `group(Math.PI)` gives 3) and wraps beyond; every
other argument (negative numbers, NaN, -Infinity) fails with
InvalidGroupLevel. -/
theorem group_argument_behaviour (q : ViewQuery) :
    (q.group (GroupArg.bool true) =
        Except.ok { q with reduceFlag := true, groupLevel? := some 0 }) ∧
    (q.group (GroupArg.num (JsNum.fin 0)) =
        Except.ok { q with reduceFlag := true, groupLevel? := some 0 }) ∧
    (q.group (GroupArg.bool false) = Except.ok { q with groupLevel? := none }) ∧
    (∀ n : JsNum, jsGtZero n = true →
        q.group (GroupArg.num n) =
          Except.ok { q with reduceFlag := true, groupLevel? := some (jsToInt32 n) }) ∧
    (∀ x : ℚ, 0 < x → x < 2147483648 → jsToInt32 (JsNum.fin x) = ⌊x⌋) ∧
    (∀ n : JsNum, jsGtZero n = false → n ≠ JsNum.fin 0 →
        q.group (GroupArg.num n) = Except.error Err.invalidGroupLevel) := by
  refine ⟨by simp [ViewQuery.group], by simp [ViewQuery.group],
    by simp [ViewQuery.group], ?_, ?_, ?_⟩
  · intro n hn
    have hn0 : ¬ n = JsNum.fin 0 := by
      intro h
      subst h
      simp [jsGtZero] at hn
    simp [ViewQuery.group, hn, hn0]
  · intro x h0 h1
    show ecmaToInt32 (ratTrunc x) = ⌊x⌋
    rw [ratTrunc_eq_floor h0.le]
    exact ecmaToInt32_of_lt (Int.floor_nonneg.mpr h0.le)
      (Int.floor_lt.mpr (by exact_mod_cast h1))
  · intro n hn hn0
    simp [ViewQuery.group, hn, hn0]

theorem group_argument_behaviour_witness :
    jsGtZero (JsNum.fin 2) = true ∧
    ((ViewQuery.forName ("w")).group (GroupArg.num (JsNum.fin 2)) =
      Except.ok { ViewQuery.forName ("w") with
                    reduceFlag := true, groupLevel? := some (jsToInt32 (JsNum.fin 2)) }) ∧
    (0 : ℚ) < 3 ∧ (3 : ℚ) < 2147483648 ∧ jsToInt32 (JsNum.fin 3) = ⌊(3 : ℚ)⌋ ∧
    jsGtZero (JsNum.fin (-1)) = false ∧
    ((ViewQuery.forName ("w")).group (GroupArg.num (JsNum.fin (-1))) =
      Except.error Err.invalidGroupLevel) :=
  ⟨by decide,
   (group_argument_behaviour (ViewQuery.forName ("w"))).2.2.2.1 (JsNum.fin 2) (by decide),
   by decide, by decide,
   (group_argument_behaviour (ViewQuery.forName ("w"))).2.2.2.2.1 3 (by decide) (by decide),
   by decide,
   (group_argument_behaviour (ViewQuery.forName ("w"))).2.2.2.2.2 (JsNum.fin (-1))
     (by decide) (by decide)⟩

/-- C3: `replace` with a revision that is not the current version token of
the document key (including for an absent document) fails with
RevisionConflict and leaves the store untouched — in particular no view
update is issued; on success the stored value is the payload with `_rev`
stripped and `_id` forced to the key. -/
theorem replace_conflict_or_strip {β υ ρ : Type} (c : Cushion β υ ρ)
    (id : String) (rev : Nat) (doc : MaybeDoc β) (db : DB β υ) :
    ((∀ e : MaybeDoc β × Nat, db.docs id = some e → e.2 ≠ rev) →
        c.replace id rev doc db = Except.error Err.revisionConflict ∧
        applyDocOp c db (DocOp.replace id rev doc) = db) ∧
    (∀ v : MaybeDoc β, db.docs id = some (v, rev) →
        replaceResult? c id rev doc db = some ⟨true, id, db.next⟩ ∧
        (applyDocOp c db (DocOp.replace id rev doc)).docs id =
          some (⟨some id, none, doc.body⟩, db.next)) := by
  constructor
  · intro h
    have herr : c.replace id rev doc db = Except.error Err.revisionConflict := by
      unfold Cushion.replace
      cases hd : db.docs id with
      | none => rfl
      | some e => simp [h e hd]
    exact ⟨herr, by simp [applyDocOp, herr]⟩
  · intro v hd
    have hok : c.replace id rev doc db =
        Except.ok (⟨true, id, db.next⟩,
          updateViewsForDoc c.ns c.views id
            (some (withRev (⟨some id, none, doc.body⟩, db.next)))
            { db with
                docs := fun d =>
                  if d = id then some (⟨some id, none, doc.body⟩, db.next)
                  else db.docs d,
                next := db.next + 1 }) := by
      unfold Cushion.replace
      rw [hd]
      simp
    refine ⟨by simp [replaceResult?, hok], ?_⟩
    simp only [applyDocOp, hok]
    rw [updateViewsForDoc_docs]
    simp

theorem replace_conflict_or_strip_witness :
    (Cushion.replace sampleCushion ("a") 5 sampleDoc sampleDB =
        Except.error Err.revisionConflict) ∧
    (applyDocOp sampleCushion sampleDB (DocOp.replace ("a") 5 sampleDoc) =
        sampleDB) ∧
    (replaceResult? sampleCushion ("a") 3 sampleDoc sampleDB =
        some ⟨true, ("a"), 7⟩) ∧
    ((applyDocOp sampleCushion sampleDB (DocOp.replace ("a") 3 sampleDoc)).docs
        ("a") = some (⟨some ("a"), none, ()⟩, 7)) := by
  have h1 := (replace_conflict_or_strip sampleCushion ("a") 5 sampleDoc sampleDB).1
    (by intro e he; simp [sampleDB] at he; subst he; decide)
  have h2 := (replace_conflict_or_strip sampleCushion ("a") 3 sampleDoc sampleDB).2
    sampleDoc (by rfl)
  exact ⟨h1.1, h1.2, h2.1, h2.2⟩

/-- Core success specification of `insert`, shared by the round-trip and
falsy-id theorems. -/
theorem insert_ok_core {β υ ρ : Type} (c : Cushion β υ ρ)
    (fresh : String) (doc : MaybeDoc β) (db : DB β υ)
    (hrev : doc.rev? = none) (habs : db.docs (resolveId doc fresh) = none) :
    insertResult? c fresh doc db = some ⟨true, resolveId doc fresh, db.next⟩ ∧
    Cushion.get c (resolveId doc fresh)
        (applyDocOp c db (DocOp.insert fresh doc)) =
      some ⟨some (resolveId doc fresh), some db.next, doc.body⟩ ∧
    (applyDocOp c db (DocOp.insert fresh doc)).docs (resolveId doc fresh) =
      some (⟨some (resolveId doc fresh), none, doc.body⟩, db.next) := by
  have hok : c.insert fresh doc db =
      Except.ok (⟨true, resolveId doc fresh, db.next⟩,
        updateViewsForDoc c.ns c.views (resolveId doc fresh)
          (some (withRev ({ doc with id? := some (resolveId doc fresh) }, db.next)))
          { db with
              docs := fun d =>
                if d = resolveId doc fresh
                then some ({ doc with id? := some (resolveId doc fresh) }, db.next)
                else db.docs d,
              next := db.next + 1 }) := by
    simp [Cushion.insert, hrev, habs]
  have hdocs : (applyDocOp c db (DocOp.insert fresh doc)).docs
      (resolveId doc fresh) =
      some (⟨some (resolveId doc fresh), none, doc.body⟩, db.next) := by
    simp only [applyDocOp, hok]
    rw [updateViewsForDoc_docs]
    simp [hrev.symm]
  refine ⟨by simp [insertResult?, hok], ?_, hdocs⟩
  unfold Cushion.get
  rw [hdocs]
  rfl

/-- C7: inserting a document that carries no `_rev` under an id that is not
yet present succeeds with the new versionstamp as rev; a subsequent get
returns the document with `_id` equal to the stored key and `_rev` equal to
that rev; and the persisted value itself holds no `_rev` while its `_id`
matches the key. -/
theorem insert_get_roundtrip {β υ ρ : Type} (c : Cushion β υ ρ)
    (fresh : String) (doc : MaybeDoc β) (db : DB β υ)
    (hrev : doc.rev? = none) (habs : db.docs (resolveId doc fresh) = none) :
    insertResult? c fresh doc db = some ⟨true, resolveId doc fresh, db.next⟩ ∧
    Cushion.get c (resolveId doc fresh)
        (applyDocOp c db (DocOp.insert fresh doc)) =
      some ⟨some (resolveId doc fresh), some db.next, doc.body⟩ ∧
    (applyDocOp c db (DocOp.insert fresh doc)).docs (resolveId doc fresh) =
      some (⟨some (resolveId doc fresh), none, doc.body⟩, db.next) :=
  insert_ok_core c fresh doc db hrev habs

theorem insert_get_roundtrip_witness :
    sampleDoc.rev? = none ∧
    (emptyDB : DB Unit Unit).docs (resolveId sampleDoc ("u")) = none ∧
    insertResult? sampleCushion ("u") sampleDoc emptyDB =
      some ⟨true, resolveId sampleDoc ("u"), 0⟩ ∧
    Cushion.get sampleCushion (resolveId sampleDoc ("u"))
        (applyDocOp sampleCushion emptyDB (DocOp.insert ("u") sampleDoc)) =
      some ⟨some (resolveId sampleDoc ("u")), some 0, ()⟩ ∧
    (applyDocOp sampleCushion emptyDB (DocOp.insert ("u") sampleDoc)).docs
        (resolveId sampleDoc ("u")) =
      some (⟨some (resolveId sampleDoc ("u")), none, ()⟩, 0) := by
  have h := insert_get_roundtrip sampleCushion ("u") sampleDoc emptyDB rfl rfl
  exact ⟨rfl, rfl, h.1, h.2.1, h.2.2⟩

/-- C9: `insert` of a document whose `_id` is present but empty (the falsy
string) stores the document under the freshly generated UUID, with `_id`
rewritten to that UUID, and does not touch the empty-string key. -/
theorem insert_falsy_id {β υ ρ : Type} (c : Cushion β υ ρ) (fresh : String)
    (doc : MaybeDoc β) (db : DB β υ) (hid : doc.id? = some (""))
    (hrev : doc.rev? = none) (hne : fresh ≠ "")
    (habs : db.docs fresh = none) :
    insertResult? c fresh doc db = some ⟨true, fresh, db.next⟩ ∧
    (applyDocOp c db (DocOp.insert fresh doc)).docs fresh =
      some (⟨some fresh, none, doc.body⟩, db.next) ∧
    (applyDocOp c db (DocOp.insert fresh doc)).docs ("") = db.docs ("") := by
  have hres : resolveId doc fresh = fresh := by
    simp [resolveId, hid]
  have h := insert_ok_core c fresh doc db hrev (by rw [hres]; exact habs)
  rw [hres] at h
  refine ⟨h.1, h.2.2, ?_⟩
  have hok : c.insert fresh doc db =
      Except.ok (⟨true, fresh, db.next⟩,
        updateViewsForDoc c.ns c.views fresh
          (some (withRev ({ doc with id? := some fresh }, db.next)))
          { db with
              docs := fun d =>
                if d = fresh
                then some ({ doc with id? := some fresh }, db.next)
                else db.docs d,
              next := db.next + 1 }) := by
    simp [Cushion.insert, hrev, hres, habs]
  simp only [applyDocOp, hok]
  rw [updateViewsForDoc_docs]
  simp [Ne.symm hne]

theorem insert_falsy_id_witness :
    insertResult? sampleCushion ("u") (⟨some (""), none, ()⟩ : MaybeDoc Unit)
        emptyDB = some ⟨true, ("u"), 0⟩ ∧
    (applyDocOp sampleCushion emptyDB
        (DocOp.insert ("u") (⟨some (""), none, ()⟩ : MaybeDoc Unit))).docs ("u") =
      some (⟨some ("u"), none, ()⟩, 0) ∧
    (applyDocOp sampleCushion emptyDB
        (DocOp.insert ("u") (⟨some (""), none, ()⟩ : MaybeDoc Unit))).docs ("") =
      (emptyDB : DB Unit Unit).docs ("") := by
  have h := insert_falsy_id sampleCushion ("u") (⟨some (""), none, ()⟩ : MaybeDoc Unit)
    emptyDB rfl rfl (by decide) rfl
  exact ⟨h.1, h.2.1, h.2.2⟩

/-! Write-path lemmas for C10: which document snapshot authorship a row can
have. -/

theorem writesLookup_mem {β υ : Type} {ws : List (KvKey × ViewRow β υ)}
    {k : KvKey} {r : ViewRow β υ} (h : writesLookup ws k = some r) :
    (k, r) ∈ ws := by
  induction ws with
  | nil => cases h
  | cons p t ih =>
    simp only [writesLookup] at h
    cases hw : writesLookup t k with
    | some r2 =>
      rw [hw] at h
      cases h
      exact List.mem_cons_of_mem _ (ih hw)
    | none =>
      rw [hw] at h
      by_cases hp : p.1 = k
      · rw [if_pos hp] at h
        cases h
        subst hp
        rw [show (p.1, p.2) = p from rfl]
        exact List.mem_cons_self _ _
      · rw [if_neg hp] at h
        cases h

theorem updateViewForDoc_rows_source {β υ : Type} (ns V : String)
    (m : MapFn β υ) (id : String) (d : MaybeDoc β) (db : DB β υ)
    (k : KvKey) (row : ViewRow β υ)
    (h : (updateViewForDoc ns V m id (some d) db).rows k = some row) :
    db.rows k = some row ∨ row.doc = d := by
  have hr : (updateViewForDoc ns V m id (some d) db).rows k =
      setRows (delKeys db.rows ((db.refs V id).getD []))
        (emittedRows ns V m id d) k := rfl
  rw [hr, setRows_apply] at h
  cases hw : writesLookup (emittedRows ns V m id d) k with
  | some r =>
    rw [hw] at h
    cases h
    exact Or.inr (emittedRows_shape (writesLookup_mem hw)).2.2
  | none =>
    rw [hw] at h
    simp only [delKeys] at h
    by_cases hm : k ∈ (db.refs V id).getD []
    · rw [if_pos hm] at h
      cases h
    · rw [if_neg hm] at h
      exact Or.inl h

theorem updateViewsForDoc_rows_source {β υ ρ : Type} (ns : String)
    (views : List (String × ViewLogic β υ ρ)) (id : String) (d : MaybeDoc β) :
    ∀ (db : DB β υ) (k : KvKey) (row : ViewRow β υ),
      (updateViewsForDoc ns views id (some d) db).rows k = some row →
      db.rows k = some row ∨ row.doc = d := by
  induction views with
  | nil => intro db k row h; exact Or.inl h
  | cons v t ih =>
    intro db k row h
    rcases ih _ k row h with h2 | h2
    · exact updateViewForDoc_rows_source ns v.1 v.2.map.fn id d db k row h2
    · exact Or.inr h2

theorem applyKvOps_rows_source {β υ : Type} (ops : List (KvOp β υ)) :
    ∀ (db : DB β υ) (k : KvKey) (row : ViewRow β υ),
      (applyKvOps db ops).rows k = some row →
      db.rows k = some row ∨ KvOp.setRow k row ∈ ops := by
  induction ops with
  | nil => intro db k row h; exact Or.inl h
  | cons o t ih =>
    intro db k row h
    rcases ih _ k row h with h2 | h2
    · cases o with
      | delRow k2 =>
        simp only [applyKvOp] at h2
        by_cases hk : k = k2
        · rw [if_pos hk] at h2; cases h2
        · rw [if_neg hk] at h2; exact Or.inl h2
      | setRow k2 r2 =>
        simp only [applyKvOp] at h2
        by_cases hk : k = k2
        · rw [if_pos hk] at h2
          injection h2 with hr
          subst hk
          subst hr
          exact Or.inr (List.mem_cons_self _ _)
        · rw [if_neg hk] at h2; exact Or.inl h2
      | delRef v d2 => exact Or.inl h2
      | setRef v d2 ks => exact Or.inl h2
      | setDesign v st => exact Or.inl h2
    · exact Or.inr (List.mem_cons_of_mem _ h2)

theorem rebuildDocOps_setRow {β υ : Type} {ns V : String} {m : MapFn β υ}
    {doc : MaybeDoc β} {k : KvKey} {row : ViewRow β υ}
    (h : KvOp.setRow k row ∈ rebuildDocOps ns V m doc) : row.doc = doc := by
  rcases List.mem_append.mp h with h1 | h1
  · obtain ⟨p, hp, hpe⟩ := List.mem_map.mp h1
    injection hpe with hk hr
    rw [← hr]
    exact (@emittedRows_shape β υ ns V m ((doc.id?).getD ("")) doc p.1 p.2
      (by simpa using hp)).2.2
  · rw [List.mem_singleton] at h1
    exact KvOp.noConfusion h1

theorem rebuildOps_setRow_doc {β υ : Type} {ns V sig : String} {m : MapFn β υ}
    {rowKeys : List KvKey} {refDocIds : List String}
    {docList : List (MaybeDoc β)} {k : KvKey} {row : ViewRow β υ}
    (h : KvOp.setRow k row ∈ rebuildOps ns V m sig rowKeys refDocIds docList) :
    ∃ d ∈ docList, row.doc = d := by
  rcases List.mem_append.mp h with hbody | hlast
  swap
  · rw [List.mem_singleton] at hlast
    exact KvOp.noConfusion hlast
  rcases List.mem_append.mp hbody with hab | hc
  · rcases List.mem_append.mp hab with ha | hb
    · obtain ⟨a, _, ha2⟩ := List.mem_map.mp ha
      exact KvOp.noConfusion ha2
    · obtain ⟨a, _, hb2⟩ := List.mem_map.mp hb
      exact KvOp.noConfusion hb2
  · obtain ⟨d2, hd2, hin⟩ := List.mem_flatMap.mp hc
    exact ⟨d2, hd2, rebuildDocOps_setRow hin⟩

/-- C10: a view row written by incremental maintenance (updateViewsForDoc,
as called after insert/replace with the snapshot carrying the fresh `_rev`)
stores a document snapshot containing `_rev`, whereas every row written by
a full rebuild stores the document exactly as persisted — without `_rev`
(stored values never persist `_rev`); the doc an includeDocs query streams
back is exactly the snapshot in the row. -/
theorem row_snapshot_rev_discrepancy {β υ ρ : Type} (ns V sig : String)
    (views : List (String × ViewLogic β υ ρ)) (m : MapFn β υ) (id : String)
    (d : MaybeDoc β) (st : Nat) (db db2 : DB β υ) (rowKeys : List KvKey)
    (refDocIds : List String) (docList : List (MaybeDoc β)) :
    (d.rev? = some st →
      ∀ (k : KvKey) (row : ViewRow β υ),
        (updateViewsForDoc ns views id (some d) db).rows k = some row →
        db.rows k = some row ∨ row.doc.rev? = some st) ∧
    ((∀ doc ∈ docList, doc.rev? = none) →
      ∀ (k : KvKey) (row : ViewRow β υ),
        (rebuildView ns V m sig rowKeys refDocIds docList db2).rows k = some row →
        db2.rows k = some row ∨ row.doc.rev? = none) := by
  constructor
  · intro hrev k row h
    rcases updateViewsForDoc_rows_source ns views id d db k row h with h2 | h2
    · exact Or.inl h2
    · exact Or.inr (by rw [h2, hrev])
  · intro hall k row h
    rcases applyKvOps_rows_source _ db2 k row h with h2 | h2
    · exact Or.inl h2
    · obtain ⟨d2, hd2, hdoc⟩ := rebuildOps_setRow_doc h2
      exact Or.inr (by rw [hdoc]; exact hall d2 hd2)

theorem row_snapshot_rev_discrepancy_witness :
    ((⟨some ("a"), some 5, ()⟩ : MaybeDoc Unit).rev? = some 5 ∧
      ((emptyDB : DB Unit Unit).rows
          [KvPart.s ("n"), KvPart.s ("view"), KvPart.s ("v"),
            KvPart.s ("k"), KvPart.s ("a")] =
        some ⟨none, ⟨some ("a"), some 5, ()⟩⟩ ∨
        (⟨none, ⟨some ("a"), some 5, ()⟩⟩ : ViewRow Unit Unit).doc.rev? = some 5)) ∧
    ((∀ doc ∈ [sampleDoc], doc.rev? = none) ∧
      ((emptyDB : DB Unit Unit).rows
          [KvPart.s ("n"), KvPart.s ("view"), KvPart.s ("v"),
            KvPart.s ("k"), KvPart.s ("a")] =
        some ⟨none, sampleDoc⟩ ∨
        (⟨none, sampleDoc⟩ : ViewRow Unit Unit).doc.rev? = none)) := by
  refine ⟨⟨rfl, ?_⟩, ⟨by decide, ?_⟩⟩
  · exact (row_snapshot_rev_discrepancy ("n") ("v") ("s") sampleCushion.views
      unitView.map.fn ("a") ⟨some ("a"), some 5, ()⟩ 5 emptyDB emptyDB
      [] [] [sampleDoc]).1 rfl
      [KvPart.s ("n"), KvPart.s ("view"), KvPart.s ("v"),
        KvPart.s ("k"), KvPart.s ("a")]
      ⟨none, ⟨some ("a"), some 5, ()⟩⟩ (by decide)
  · exact (row_snapshot_rev_discrepancy ("n") ("v") ("s") sampleCushion.views
      unitView.map.fn ("a") ⟨some ("a"), some 5, ()⟩ 5 emptyDB emptyDB
      [] [] [sampleDoc]).2 (by decide)
      [KvPart.s ("n"), KvPart.s ("view"), KvPart.s ("v"),
        KvPart.s ("k"), KvPart.s ("a")]
      ⟨none, sampleDoc⟩ (by decide)

/-! Design-record lemmas for defineView/rebuild. -/

theorem applyKvOps_design_no_set {β υ : Type} (ops : List (KvOp β υ))
    (h : ∀ o ∈ ops, ∀ (v : String) (st : ViewState), o ≠ KvOp.setDesign v st) :
    ∀ db : DB β υ, (applyKvOps db ops).design = db.design := by
  induction ops with
  | nil => intro db; rfl
  | cons o t ih =>
    intro db
    show (applyKvOps (applyKvOp db o) t).design = _
    rw [ih (fun o2 ho2 => h o2 (List.mem_cons_of_mem _ ho2))]
    cases o with
    | setDesign v st => exact absurd rfl (h _ (List.mem_cons_self _ _) v st)
    | delRow k => rfl
    | delRef v d => rfl
    | setRow k r => rfl
    | setRef v d ks => rfl

theorem rebuildBodyOps_no_setDesign {β υ : Type} (ns V : String)
    (m : MapFn β υ) (rowKeys : List KvKey) (refDocIds : List String)
    (docList : List (MaybeDoc β)) :
    ∀ o ∈ rebuildBodyOps ns V m rowKeys refDocIds docList,
      ∀ (v : String) (st : ViewState), o ≠ KvOp.setDesign v st := by
  intro o ho v st
  rcases List.mem_append.mp ho with hab | hc
  · rcases List.mem_append.mp hab with ha | hb
    · obtain ⟨a, _, rfl⟩ := List.mem_map.mp ha
      exact fun he => KvOp.noConfusion he
    · obtain ⟨a, _, rfl⟩ := List.mem_map.mp hb
      exact fun he => KvOp.noConfusion he
  · obtain ⟨d2, _, hin⟩ := List.mem_flatMap.mp hc
    rcases List.mem_append.mp hin with h1 | h1
    · obtain ⟨p, _, rfl⟩ := List.mem_map.mp h1
      exact fun he => KvOp.noConfusion he
    · rw [List.mem_singleton] at h1
      subst h1
      exact fun he => KvOp.noConfusion he

theorem rebuildView_design {β υ : Type} (ns V : String) (m : MapFn β υ)
    (sig : String) (rowKeys : List KvKey) (refDocIds : List String)
    (docList : List (MaybeDoc β)) (db : DB β υ) :
    (rebuildView ns V m sig rowKeys refDocIds docList db).design =
      fun v => if v = V then some ⟨sig, ViewSt.ready⟩ else db.design v := by
  have h1 : rebuildView ns V m sig rowKeys refDocIds docList db =
      applyKvOp (applyKvOps db (rebuildBodyOps ns V m rowKeys refDocIds docList))
        (KvOp.setDesign V ⟨sig, ViewSt.ready⟩) := by
    unfold rebuildView rebuildOps applyKvOps
    rw [List.foldl_append]
    rfl
  rw [h1]
  show (fun v2 => if v2 = V then some (⟨sig, ViewSt.ready⟩ : ViewState)
      else (applyKvOps db (rebuildBodyOps ns V m rowKeys refDocIds docList)).design v2) = _
  simp only [applyKvOps_design_no_set _
    (rebuildBodyOps_no_setDesign ns V m rowKeys refDocIds docList) db]

/-- C8: calling defineView again with the same map function — so that the
persisted design record's signature equals the digest of its textual form —
performs no rebuild: the second call leaves the store untouched (no view
rows, back-refs or design records written, no map execution) and only
replaces the in-memory registry entry. -/
theorem defineView_second_call_no_rebuild {β υ ρ : Type} (c : Cushion β υ ρ)
    (H : String → String) (viewName : String) (mapper : MapFunction β υ)
    (r1 r2 : Option ρ) (rowKeys rowKeys2 : List KvKey)
    (refDocIds refDocIds2 : List String)
    (docList docList2 : List (MaybeDoc β)) (db : DB β υ) :
    (Cushion.defineView
        (Cushion.defineView c H viewName mapper r1 rowKeys refDocIds docList db).1
        H viewName mapper r2 rowKeys2 refDocIds2 docList2
        (Cushion.defineView c H viewName mapper r1 rowKeys refDocIds docList db).2.1).1.views
        = mapSet
            (Cushion.defineView c H viewName mapper r1 rowKeys refDocIds docList db).1.views
            viewName ⟨mapper, r2⟩ ∧
    (Cushion.defineView
        (Cushion.defineView c H viewName mapper r1 rowKeys refDocIds docList db).1
        H viewName mapper r2 rowKeys2 refDocIds2 docList2
        (Cushion.defineView c H viewName mapper r1 rowKeys refDocIds docList db).2.1).2.1
        = (Cushion.defineView c H viewName mapper r1 rowKeys refDocIds docList db).2.1 ∧
    (Cushion.defineView
        (Cushion.defineView c H viewName mapper r1 rowKeys refDocIds docList db).1
        H viewName mapper r2 rowKeys2 refDocIds2 docList2
        (Cushion.defineView c H viewName mapper r1 rowKeys refDocIds docList db).2.1).2.2
        = false := by
  cases hdes : db.design viewName with
  | some vs =>
    by_cases h1 : vs.signature = H mapper.src
    · have hfirst : Cushion.defineView c H viewName mapper r1 rowKeys refDocIds docList db =
          ({ c with views := mapSet c.views viewName ⟨mapper, r1⟩ }, db, false) := by
        unfold Cushion.defineView
        rw [hdes]
        simp [h1]
      rw [hfirst]
      unfold Cushion.defineView
      rw [show ((({ c with views := mapSet c.views viewName ⟨mapper, r1⟩ },
            db, false) : Cushion β υ ρ × DB β υ × Bool)).2.1.design viewName =
          some vs from hdes]
      simp [h1]
    · by_cases h2 : vs.state = ViewSt.building
      · have hfirst : Cushion.defineView c H viewName mapper r1 rowKeys refDocIds docList db =
            ({ c with views := mapSet c.views viewName ⟨mapper, r1⟩ }, db, false) := by
          unfold Cushion.defineView
          rw [hdes]
          simp [h1, h2]
        rw [hfirst]
        unfold Cushion.defineView
        rw [show ((({ c with views := mapSet c.views viewName ⟨mapper, r1⟩ },
              db, false) : Cushion β υ ρ × DB β υ × Bool)).2.1.design viewName =
            some vs from hdes]
        simp [h1, h2]
      · have hfirst : Cushion.defineView c H viewName mapper r1 rowKeys refDocIds docList db =
            ({ c with views := mapSet c.views viewName ⟨mapper, r1⟩ },
              rebuildView c.ns viewName mapper.fn (H mapper.src) rowKeys refDocIds docList db,
              true) := by
          unfold Cushion.defineView
          rw [hdes]
          simp [h1, h2]
        rw [hfirst]
        unfold Cushion.defineView
        rw [show ((({ c with views := mapSet c.views viewName ⟨mapper, r1⟩ },
              rebuildView c.ns viewName mapper.fn (H mapper.src) rowKeys refDocIds docList db,
              true) : Cushion β υ ρ × DB β υ × Bool)).2.1.design viewName =
            some ⟨H mapper.src, ViewSt.ready⟩ from by
          show (rebuildView c.ns viewName mapper.fn (H mapper.src) rowKeys refDocIds
              docList db).design viewName = _
          rw [rebuildView_design]
          simp]
        simp
  | none =>
    have hfirst : Cushion.defineView c H viewName mapper r1 rowKeys refDocIds docList db =
        ({ c with views := mapSet c.views viewName ⟨mapper, r1⟩ },
          rebuildView c.ns viewName mapper.fn (H mapper.src) rowKeys refDocIds docList db,
          true) := by
      unfold Cushion.defineView
      rw [hdes]
    rw [hfirst]
    unfold Cushion.defineView
    rw [show ((({ c with views := mapSet c.views viewName ⟨mapper, r1⟩ },
          rebuildView c.ns viewName mapper.fn (H mapper.src) rowKeys refDocIds docList db,
          true) : Cushion β υ ρ × DB β υ × Bool)).2.1.design viewName =
        some ⟨H mapper.src, ViewSt.ready⟩ from by
      show (rebuildView c.ns viewName mapper.fn (H mapper.src) rowKeys refDocIds
          docList db).design viewName = _
      rw [rebuildView_design]
      simp]
    simp

/-- C5 (evaluation at the failing input): during a rebuild the persisted
design record is never in state "building" — after every proper prefix of
the rebuild's mutation sequence for a fresh view over a one-document store
the record is still absent, and only the final mutation writes
{signature, state: "ready"}.  The source never writes "building" anywhere,
so the defineView guard for a concurrent build can never fire. -/
theorem rebuild_never_writes_building :
    ((List.range
        (rebuildOps ("n") ("v") unitView.map.fn ("s") [] [] [sampleDoc]).length).all
      (fun j =>
        decide (((applyKvOps sampleDB
            ((rebuildOps ("n") ("v") unitView.map.fn ("s") [] [] [sampleDoc]).take j)).design
          ("v")) = none)) = true) ∧
    (rebuildView ("n") ("v") unitView.map.fn ("s") [] [] [sampleDoc] sampleDB).design ("v")
      = some ⟨("s"), ViewSt.ready⟩ := by
  constructor
  · decide
  · decide

/-! Invariant machinery for C1. -/

theorem expectedRowAt_congr {β υ : Type} (ns V : String) (m : MapFn β υ)
    (docs1 docs2 : String → Option (MaybeDoc β × Nat)) (k : KvKey)
    (h : ∀ d, k.getLast? = some (KvPart.s d) → docs1 d = docs2 d) :
    expectedRowAt ns V m docs1 k = expectedRowAt ns V m docs2 k := by
  unfold expectedRowAt
  cases hk : k.getLast? with
  | none => rfl
  | some p =>
    cases p with
    | s d =>
      show (match docs1 d with
          | some e => writesLookup (liveRows ns V m d e) k
          | none => none) =
        (match docs2 d with
          | some e => writesLookup (liveRows ns V m d e) k
          | none => none)
      rw [h d hk]
    | i v => rfl
    | b v => rfl

theorem updateViewForDoc_other_frame {β υ : Type} {ns V V' : String}
    (hne : V' ≠ V) (m' : MapFn β υ) (id' : String)
    (doc?' : Option (MaybeDoc β)) (db : DB β υ)
    (hsc : refsWellScoped ns db) :
    (∀ k, getViewKey ns V <+: k →
        (updateViewForDoc ns V' m' id' doc?' db).rows k = db.rows k) ∧
    (∀ d, (updateViewForDoc ns V' m' id' doc?' db).refs V d = db.refs V d) := by
  have hnotin : ∀ k, getViewKey ns V <+: k →
      k ∉ (db.refs V' id').getD [] := by
    intro k hk hmem
    cases href : db.refs V' id' with
    | none => rw [href] at hmem; cases hmem
    | some ks =>
      rw [href] at hmem
      exact hne (viewKey_prefix_inj (hsc V' id' ks href k hmem).1 hk)
  have hnotws : ∀ (d : MaybeDoc β) (k : KvKey), getViewKey ns V <+: k →
      writesLookup (emittedRows ns V' m' id' d) k = none := by
    intro d k hk
    rw [writesLookup_eq_none_iff]
    intro hmem
    exact hne (viewKey_prefix_inj (emittedRows_key_shape hmem).1 hk)
  have hcond : ∀ d : String, ¬ (V = V' ∧ d = id') ∨ True := fun d => Or.inr trivial
  constructor
  · intro k hk
    cases doc?' with
    | none =>
      show delKeys db.rows ((db.refs V' id').getD []) k = db.rows k
      simp [delKeys, hnotin k hk]
    | some d =>
      show setRows (delKeys db.rows ((db.refs V' id').getD []))
        (emittedRows ns V' m' id' d) k = db.rows k
      rw [setRows_apply, hnotws d k hk]
      simp [delKeys, hnotin k hk]
  · intro d
    have hVne : ¬ (V = V' ∧ d = id') := fun hc => hne hc.1.symm
    cases doc?' with
    | none =>
      show (if V = V' ∧ d = id' then none else db.refs V d) = db.refs V d
      simp [hVne]
    | some d2 =>
      show (if V = V' ∧ d = id'
          then some ((emittedRows ns V' m' id' d2).map Prod.fst)
          else db.refs V d) = db.refs V d
      simp [hVne]

theorem updateViewForDoc_scoped {β υ : Type} {ns : String} (V0 : String)
    (m0 : MapFn β υ) (id0 : String) (doc? : Option (MaybeDoc β))
    (db : DB β υ) (hsc : refsWellScoped ns db) :
    refsWellScoped ns (updateViewForDoc ns V0 m0 id0 doc? db) := by
  intro V id ks h k hk
  cases doc? with
  | none =>
    by_cases hc : V = V0 ∧ id = id0
    · have : (updateViewForDoc ns V0 m0 id0 none db).refs V id = none := by
        show (if V = V0 ∧ id = id0 then none else db.refs V id) = none
        simp [hc]
      rw [this] at h
      cases h
    · have : (updateViewForDoc ns V0 m0 id0 none db).refs V id = db.refs V id := by
        show (if V = V0 ∧ id = id0 then none else db.refs V id) = _
        simp [hc]
      rw [this] at h
      exact hsc V id ks h k hk
  | some d =>
    by_cases hc : V = V0 ∧ id = id0
    · have : (updateViewForDoc ns V0 m0 id0 (some d) db).refs V id =
          some ((emittedRows ns V0 m0 id0 d).map Prod.fst) := by
        show (if V = V0 ∧ id = id0
            then some ((emittedRows ns V0 m0 id0 d).map Prod.fst)
            else db.refs V id) = _
        simp [hc]
      rw [this] at h
      injection h with hks
      subst hks
      obtain ⟨hc1, hc2⟩ := hc
      subst hc1
      subst hc2
      exact emittedRows_key_shape hk
    · have : (updateViewForDoc ns V0 m0 id0 (some d) db).refs V id = db.refs V id := by
        show (if V = V0 ∧ id = id0
            then some ((emittedRows ns V0 m0 id0 d).map Prod.fst)
            else db.refs V id) = _
        simp [hc]
      rw [this] at h
      exact hsc V id ks h k hk

theorem updateViewForDoc_other_midInv {β υ : Type} {ns V V' : String}
    (hne : V' ≠ V) (m : MapFn β υ) (m' : MapFn β υ) (id : String)
    (old : Option (MaybeDoc β × Nat)) (id' : String)
    (doc?' : Option (MaybeDoc β)) (db : DB β υ)
    (hmid : midInv ns V m id old db) (hsc : refsWellScoped ns db) :
    midInv ns V m id old (updateViewForDoc ns V' m' id' doc?' db) := by
  obtain ⟨hrow, href⟩ := updateViewForDoc_other_frame hne m' id' doc?' db hsc
  have hdocs := updateViewForDoc_docs ns V' m' id' doc?' db
  refine ⟨?_, ?_, ?_, ?_⟩
  · intro k hk hlast
    rw [hrow k hk, hdocs]
    exact hmid.1 k hk hlast
  · intro k hk hlast
    rw [hrow k hk]
    exact hmid.2.1 k hk hlast
  · intro d hd
    rw [href d, hdocs]
    exact hmid.2.2.1 d hd
  · rw [href id]
    exact hmid.2.2.2

theorem updateViewForDoc_other_viewInv {β υ : Type} {ns V V' : String}
    (hne : V' ≠ V) (m : MapFn β υ) (m' : MapFn β υ) (id' : String)
    (doc?' : Option (MaybeDoc β)) (db : DB β υ)
    (hinv : viewInv ns V m db) (hsc : refsWellScoped ns db) :
    viewInv ns V m (updateViewForDoc ns V' m' id' doc?' db) := by
  obtain ⟨hrow, href⟩ := updateViewForDoc_other_frame hne m' id' doc?' db hsc
  have hdocs := updateViewForDoc_docs ns V' m' id' doc?' db
  constructor
  · intro k hk
    rw [hrow k hk, hdocs]
    exact hinv.1 k hk
  · intro d
    rw [href d, hdocs]
    exact hinv.2 d

theorem updateViewsForDoc_away_midInv {β υ ρ : Type} {ns V : String}
    (m : MapFn β υ) (id : String) (old : Option (MaybeDoc β × Nat))
    (l : List (String × ViewLogic β υ ρ)) (hl : ∀ p ∈ l, p.1 ≠ V)
    (id' : String) (doc?' : Option (MaybeDoc β)) :
    ∀ db : DB β υ, midInv ns V m id old db → refsWellScoped ns db →
      midInv ns V m id old (updateViewsForDoc ns l id' doc?' db) ∧
      refsWellScoped ns (updateViewsForDoc ns l id' doc?' db) := by
  induction l with
  | nil => intro db hmid hsc; exact ⟨hmid, hsc⟩
  | cons v t ih =>
    intro db hmid hsc
    have hv : v.1 ≠ V := hl v (List.mem_cons_self _ _)
    have hmid2 := updateViewForDoc_other_midInv hv m v.2.map.fn id old id' doc?' db hmid hsc
    have hsc2 := updateViewForDoc_scoped v.1 v.2.map.fn id' doc?' db hsc
    exact ih (fun p hp => hl p (List.mem_cons_of_mem _ hp)) _ hmid2 hsc2

theorem updateViewsForDoc_away_viewInv {β υ ρ : Type} {ns V : String}
    (m : MapFn β υ) (l : List (String × ViewLogic β υ ρ))
    (hl : ∀ p ∈ l, p.1 ≠ V) (id' : String) (doc?' : Option (MaybeDoc β)) :
    ∀ db : DB β υ, viewInv ns V m db → refsWellScoped ns db →
      viewInv ns V m (updateViewsForDoc ns l id' doc?' db) ∧
      refsWellScoped ns (updateViewsForDoc ns l id' doc?' db) := by
  induction l with
  | nil => intro db hinv hsc; exact ⟨hinv, hsc⟩
  | cons v t ih =>
    intro db hinv hsc
    have hv : v.1 ≠ V := hl v (List.mem_cons_self _ _)
    have hinv2 := updateViewForDoc_other_viewInv hv m v.2.map.fn id' doc?' db hinv hsc
    have hsc2 := updateViewForDoc_scoped v.1 v.2.map.fn id' doc?' db hsc
    exact ih (fun p hp => hl p (List.mem_cons_of_mem _ hp)) _ hinv2 hsc2

theorem updateViewForDoc_own {β υ : Type} (ns V : String) (m : MapFn β υ)
    (id : String) (old : Option (MaybeDoc β × Nat))
    (doc? : Option (MaybeDoc β)) (db : DB β υ)
    (hmid : midInv ns V m id old db)
    (hc : (∃ e, db.docs id = some e ∧ doc? = some (withRev e)) ∨
          (db.docs id = none ∧ doc? = none)) :
    viewInv ns V m (updateViewForDoc ns V m id doc? db) := by
  obtain ⟨haway, hstale, hrefaway, hrefstale⟩ := hmid
  have hOldKeys : (db.refs V id).getD [] =
      (old.map fun e => (liveRows ns V m id e).map Prod.fst).getD [] := by
    rw [hrefstale]
  have hOldShape : ∀ k ∈ (db.refs V id).getD [],
      getViewKey ns V <+: k ∧ k.getLast? = some (KvPart.s id) := by
    rw [hOldKeys]
    cases old with
    | none => intro k hk; cases hk
    | some e => intro k hk; exact emittedRows_key_shape hk
  have hdel : ∀ k, getViewKey ns V <+: k → k.getLast? = some (KvPart.s id) →
      delKeys db.rows ((db.refs V id).getD []) k = none := by
    intro k hk hlast
    by_cases hmem : k ∈ (db.refs V id).getD []
    · simp [delKeys, hmem]
    · have hrow := hstale k hk hlast
      simp only [delKeys, if_neg hmem]
      rw [hrow]
      cases old with
      | none => rfl
      | some e =>
        show writesLookup (liveRows ns V m id e) k = none
        cases hw : writesLookup (liveRows ns V m id e) k with
        | none => rfl
        | some r =>
          exfalso
          apply hmem
          rw [hOldKeys]
          exact List.mem_map_of_mem Prod.fst (writesLookup_mem hw)
  have hframe0 : ∀ k, getViewKey ns V <+: k → k.getLast? ≠ some (KvPart.s id) →
      delKeys db.rows ((db.refs V id).getD []) k = db.rows k := by
    intro k hk hlast
    have hmem : k ∉ (db.refs V id).getD [] := fun hm => hlast (hOldShape k hm).2
    simp [delKeys, hmem]
  have hframe : ∀ k, getViewKey ns V <+: k → k.getLast? ≠ some (KvPart.s id) →
      ∀ d : MaybeDoc β, setRows (delKeys db.rows ((db.refs V id).getD []))
        (emittedRows ns V m id d) k = db.rows k := by
    intro k hk hlast d
    rw [setRows_apply]
    have hw : writesLookup (emittedRows ns V m id d) k = none := by
      rw [writesLookup_eq_none_iff]
      intro hmem
      exact hlast (emittedRows_key_shape hmem).2
    rw [hw]
    exact hframe0 k hk hlast
  rcases hc with ⟨e, hdocs, hdq⟩ | ⟨hdocs, hdq⟩
  · subst hdq
    constructor
    · intro k hk
      show setRows (delKeys db.rows ((db.refs V id).getD []))
          (emittedRows ns V m id (withRev e)) k =
        expectedRowAt ns V m db.docs k
      by_cases hlast : k.getLast? = some (KvPart.s id)
      · have hexp : expectedRowAt ns V m db.docs k =
            writesLookup (liveRows ns V m id e) k := by
          unfold expectedRowAt
          rw [hlast]
          show (match db.docs id with
              | some e2 => writesLookup (liveRows ns V m id e2) k
              | none => none) = _
          rw [hdocs]
        rw [hexp, setRows_apply]
        cases hw : writesLookup (emittedRows ns V m id (withRev e)) k with
        | some r =>
          show some r = writesLookup (emittedRows ns V m id (withRev e)) k
          rw [hw]
        | none =>
          show delKeys db.rows ((db.refs V id).getD []) k =
            writesLookup (emittedRows ns V m id (withRev e)) k
          rw [hw]
          exact hdel k hk hlast
      · rw [hframe k hk hlast]
        exact haway k hk hlast
    · intro d
      by_cases hd : d = id
      · subst hd
        show (if V = V ∧ d = d
            then some ((emittedRows ns V m d (withRev e)).map Prod.fst)
            else db.refs V d) =
          (db.docs d).map fun e2 => (liveRows ns V m d e2).map Prod.fst
        rw [if_pos ⟨rfl, rfl⟩, hdocs]
        rfl
      · show (if V = V ∧ d = id
            then some ((emittedRows ns V m id (withRev e)).map Prod.fst)
            else db.refs V d) =
          (db.docs d).map fun e2 => (liveRows ns V m d e2).map Prod.fst
        rw [if_neg (fun hx => hd hx.2)]
        exact hrefaway d hd
  · subst hdq
    constructor
    · intro k hk
      show delKeys db.rows ((db.refs V id).getD []) k =
        expectedRowAt ns V m db.docs k
      by_cases hlast : k.getLast? = some (KvPart.s id)
      · rw [hdel k hk hlast]
        unfold expectedRowAt
        rw [hlast]
        show (none : Option (ViewRow β υ)) =
          (match db.docs id with
            | some e2 => writesLookup (liveRows ns V m id e2) k
            | none => none)
        rw [hdocs]
      · rw [hframe0 k hk hlast]
        exact haway k hk hlast
    · intro d
      by_cases hd : d = id
      · subst hd
        show (if V = V ∧ d = d then none else db.refs V d) =
          (db.docs d).map fun e2 => (liveRows ns V m d e2).map Prod.fst
        rw [if_pos ⟨rfl, rfl⟩, hdocs]
        rfl
      · show (if V = V ∧ d = id then none else db.refs V d) =
          (db.docs d).map fun e2 => (liveRows ns V m d e2).map Prod.fst
        rw [if_neg (fun hx => hd hx.2)]
        exact hrefaway d hd

theorem commit_midInv {β υ : Type} (ns V : String) (m : MapFn β υ)
    (id : String) (db : DB β υ) (hinv : viewInv ns V m db)
    (new? : Option (MaybeDoc β × Nat)) (n' : Nat) :
    midInv ns V m id (db.docs id)
      ⟨fun d => if d = id then new? else db.docs d, db.rows, db.refs,
        db.design, n'⟩ := by
  refine ⟨?_, ?_, ?_, ?_⟩
  · intro k hk hlast
    show db.rows k = expectedRowAt ns V m
      (fun d => if d = id then new? else db.docs d) k
    rw [hinv.1 k hk]
    apply expectedRowAt_congr
    intro d hd
    have hdne : d ≠ id := by
      intro h
      subst h
      exact hlast hd
    simp [hdne]
  · intro k hk hlast
    rw [hinv.1 k hk]
    unfold expectedRowAt
    rw [hlast]
  · intro d hd
    show db.refs V d =
      ((fun d2 => if d2 = id then new? else db.docs d2) d).map
        fun e => (liveRows ns V m d e).map Prod.fst
    rw [hinv.2 d]
    simp [hd]
  · exact hinv.2 id

theorem updateViewsForDoc_append {β υ ρ : Type} (ns : String)
    (a b : List (String × ViewLogic β υ ρ)) (id : String)
    (doc? : Option (MaybeDoc β)) (db : DB β υ) :
    updateViewsForDoc ns (a ++ b) id doc? db =
      updateViewsForDoc ns b id doc? (updateViewsForDoc ns a id doc? db) :=
  List.foldl_append _ _ _ _

theorem updateViewsForDoc_establish {β υ ρ : Type} (ns V : String)
    (lg : ViewLogic β υ ρ) (l1 l2 : List (String × ViewLogic β υ ρ))
    (h1 : ∀ p ∈ l1, p.1 ≠ V) (h2 : ∀ p ∈ l2, p.1 ≠ V) (id : String)
    (old : Option (MaybeDoc β × Nat)) (doc? : Option (MaybeDoc β))
    (db : DB β υ) (hmid : midInv ns V lg.map.fn id old db)
    (hsc : refsWellScoped ns db)
    (hc : (∃ e, db.docs id = some e ∧ doc? = some (withRev e)) ∨
          (db.docs id = none ∧ doc? = none)) :
    viewInv ns V lg.map.fn (updateViewsForDoc ns (l1 ++ (V, lg) :: l2) id doc? db) ∧
    refsWellScoped ns (updateViewsForDoc ns (l1 ++ (V, lg) :: l2) id doc? db) := by
  rw [updateViewsForDoc_append]
  obtain ⟨hmid1, hsc1⟩ :=
    updateViewsForDoc_away_midInv lg.map.fn id old l1 h1 id doc? db hmid hsc
  have hdocs1 : (updateViewsForDoc ns l1 id doc? db).docs = db.docs :=
    updateViewsForDoc_docs ns l1 id doc? db
  have hstep : viewInv ns V lg.map.fn
      (updateViewForDoc ns V lg.map.fn id doc?
        (updateViewsForDoc ns l1 id doc? db)) :=
    updateViewForDoc_own ns V lg.map.fn id old doc?
      (updateViewsForDoc ns l1 id doc? db) hmid1 (by
        rcases hc with ⟨e, he1, he2⟩ | ⟨he1, he2⟩
        · exact Or.inl ⟨e, by rw [hdocs1]; exact he1, he2⟩
        · exact Or.inr ⟨by rw [hdocs1]; exact he1, he2⟩)
  have hscstep := updateViewForDoc_scoped V lg.map.fn id doc?
    (updateViewsForDoc ns l1 id doc? db) hsc1
  show viewInv ns V lg.map.fn (updateViewsForDoc ns l2 id doc?
      (updateViewForDoc ns V lg.map.fn id doc?
        (updateViewsForDoc ns l1 id doc? db))) ∧ _
  exact updateViewsForDoc_away_viewInv lg.map.fn l2 h2 id doc? _ hstep hscstep

theorem applyDocOp_preserves {β υ ρ : Type} (c : Cushion β υ ρ) (V : String)
    (lg : ViewLogic β υ ρ) (l1 l2 : List (String × ViewLogic β υ ρ))
    (hviews : c.views = l1 ++ (V, lg) :: l2)
    (h1 : ∀ p ∈ l1, p.1 ≠ V) (h2 : ∀ p ∈ l2, p.1 ≠ V)
    (db : DB β υ) (op : DocOp β)
    (hinv : viewInv c.ns V lg.map.fn db) (hsc : refsWellScoped c.ns db) :
    viewInv c.ns V lg.map.fn (applyDocOp c db op) ∧
    refsWellScoped c.ns (applyDocOp c db op) := by
  cases op with
  | insert fresh doc =>
    by_cases hrev : doc.rev?.isSome
    · have herr : c.insert fresh doc db = Except.error Err.unexpectedRev := by
        simp [Cushion.insert, hrev]
      simp only [applyDocOp, herr]
      exact ⟨hinv, hsc⟩
    · cases hdoc : db.docs (resolveId doc fresh) with
      | some e =>
        have herr : c.insert fresh doc db = Except.error Err.duplicateDocument := by
          simp [Cushion.insert, hrev, hdoc]
        simp only [applyDocOp, herr]
        exact ⟨hinv, hsc⟩
      | none =>
        have hok : c.insert fresh doc db = Except.ok
            (⟨true, resolveId doc fresh, db.next⟩,
              updateViewsForDoc c.ns c.views (resolveId doc fresh)
                (some (withRev
                  ({ doc with id? := some (resolveId doc fresh) }, db.next)))
                { db with
                    docs := fun d => if d = resolveId doc fresh
                      then some ({ doc with id? := some (resolveId doc fresh) },
                        db.next)
                      else db.docs d,
                    next := db.next + 1 }) := by
          simp [Cushion.insert, hrev, hdoc]
        simp only [applyDocOp, hok]
        rw [hviews]
        refine updateViewsForDoc_establish c.ns V lg l1 l2 h1 h2
          (resolveId doc fresh) (db.docs (resolveId doc fresh))
          (some (withRev ({ doc with id? := some (resolveId doc fresh) }, db.next)))
          _ ?_ ?_ ?_
        · exact commit_midInv c.ns V lg.map.fn (resolveId doc fresh) db hinv
            (some ({ doc with id? := some (resolveId doc fresh) }, db.next))
            (db.next + 1)
        · exact hsc
        · refine Or.inl
            ⟨({ doc with id? := some (resolveId doc fresh) }, db.next), ?_, rfl⟩
          show (if resolveId doc fresh = resolveId doc fresh
              then some ({ doc with id? := some (resolveId doc fresh) }, db.next)
              else db.docs (resolveId doc fresh)) = _
          simp
  | replace id rev doc =>
    cases hdoc : db.docs id with
    | none =>
      have herr : c.replace id rev doc db = Except.error Err.revisionConflict := by
        unfold Cushion.replace
        rw [hdoc]
      simp only [applyDocOp, herr]
      exact ⟨hinv, hsc⟩
    | some e =>
      by_cases hrev : e.2 = rev
      · have hok : c.replace id rev doc db = Except.ok (⟨true, id, db.next⟩,
            updateViewsForDoc c.ns c.views id
              (some (withRev (⟨some id, none, doc.body⟩, db.next)))
              { db with
                  docs := fun d =>
                    if d = id then some (⟨some id, none, doc.body⟩, db.next)
                    else db.docs d,
                  next := db.next + 1 }) := by
          unfold Cushion.replace
          rw [hdoc]
          simp [hrev]
        simp only [applyDocOp, hok]
        rw [hviews]
        refine updateViewsForDoc_establish c.ns V lg l1 l2 h1 h2 id (db.docs id)
          (some (withRev (⟨some id, none, doc.body⟩, db.next))) _ ?_ ?_ ?_
        · exact commit_midInv c.ns V lg.map.fn id db hinv
            (some (⟨some id, none, doc.body⟩, db.next)) (db.next + 1)
        · exact hsc
        · refine Or.inl ⟨(⟨some id, none, doc.body⟩, db.next), ?_, rfl⟩
          show (if id = id then some ((⟨some id, none, doc.body⟩ : MaybeDoc β),
              db.next) else db.docs id) = _
          simp
      · have herr : c.replace id rev doc db = Except.error Err.revisionConflict := by
          unfold Cushion.replace
          rw [hdoc]
          simp [hrev]
        simp only [applyDocOp, herr]
        exact ⟨hinv, hsc⟩
  | remove id rev =>
    cases hdoc : db.docs id with
    | none =>
      have herr : c.remove id rev db = Except.error Err.revisionConflict := by
        unfold Cushion.remove
        rw [hdoc]
      simp only [applyDocOp, herr]
      exact ⟨hinv, hsc⟩
    | some e =>
      by_cases hrev : e.2 = rev
      · have hok : c.remove id rev db = Except.ok
            (updateViewsForDoc c.ns c.views id none
              { db with docs := fun d => if d = id then none else db.docs d }) := by
          unfold Cushion.remove
          rw [hdoc]
          simp [hrev]
        simp only [applyDocOp, hok]
        rw [hviews]
        refine updateViewsForDoc_establish c.ns V lg l1 l2 h1 h2 id (db.docs id)
          none _ ?_ ?_ ?_
        · exact commit_midInv c.ns V lg.map.fn id db hinv none db.next
        · exact hsc
        · refine Or.inr ⟨?_, rfl⟩
          show (if id = id then none else db.docs id) = none
          simp
      · have herr : c.remove id rev db = Except.error Err.revisionConflict := by
          unfold Cushion.remove
          rw [hdoc]
          simp [hrev]
        simp only [applyDocOp, herr]
        exact ⟨hinv, hsc⟩

theorem applyDocOps_preserves {β υ ρ : Type} (c : Cushion β υ ρ) (V : String)
    (lg : ViewLogic β υ ρ) (l1 l2 : List (String × ViewLogic β υ ρ))
    (hviews : c.views = l1 ++ (V, lg) :: l2)
    (h1 : ∀ p ∈ l1, p.1 ≠ V) (h2 : ∀ p ∈ l2, p.1 ≠ V)
    (ops : List (DocOp β)) :
    ∀ db : DB β υ, viewInv c.ns V lg.map.fn db → refsWellScoped c.ns db →
      viewInv c.ns V lg.map.fn (applyDocOps c db ops) ∧
      refsWellScoped c.ns (applyDocOps c db ops) := by
  induction ops with
  | nil => intro db hinv hsc; exact ⟨hinv, hsc⟩
  | cons op t ih =>
    intro db hinv hsc
    obtain ⟨h3, h4⟩ := applyDocOp_preserves c V lg l1 l2 hviews h1 h2 db op hinv hsc
    exact ih _ h3 h4

theorem viewInv_empty {β υ : Type} (ns V : String) (m : MapFn β υ) :
    viewInv ns V m (emptyDB : DB β υ) := by
  constructor
  · intro k hk
    show (none : Option (ViewRow β υ)) = expectedRowAt ns V m (fun _ => none) k
    unfold expectedRowAt
    cases hl : k.getLast? with
    | none => rfl
    | some p => cases p <;> rfl
  · intro id
    rfl

theorem refsWellScoped_empty {β υ : Type} (ns : String) :
    refsWellScoped ns (emptyDB : DB β υ) := by
  intro V id ks h
  cases h

/-- C1: fix any view V registered in the Cushion (with distinct registry
names) whose state satisfies the view invariant — as it does right after V
is (re)built, in particular on an empty store.  After any sequence of
insert/replace/remove operations: the rows under V's row prefix are exactly
those produced by running V's map function over every live document (as a
reader observes it); the back-reference of every live document lists
exactly its emitted composite keys, and a removed or absent document has no
back-reference and no rows; moreover a key is listed in a back-reference
exactly when a row for it exists under the prefix with that document id as
trailing part. -/
theorem view_maintenance_invariant {β υ ρ : Type} (c : Cushion β υ ρ)
    (V : String) (lg : ViewLogic β υ ρ) (db : DB β υ) (ops : List (DocOp β))
    (hmem : (V, lg) ∈ c.views) (hnd : (c.views.map Prod.fst).Nodup)
    (hinv : viewInv c.ns V lg.map.fn db) (hsc : refsWellScoped c.ns db) :
    viewInv c.ns V lg.map.fn (applyDocOps c db ops) ∧
    (∀ id, (applyDocOps c db ops).docs id = none →
        (applyDocOps c db ops).refs V id = none ∧
        ∀ k, getViewKey c.ns V <+: k → k.getLast? = some (KvPart.s id) →
          (applyDocOps c db ops).rows k = none) ∧
    (∀ id ks, (applyDocOps c db ops).refs V id = some ks →
        ∀ k, k ∈ ks ↔ (getViewKey c.ns V <+: k ∧
          k.getLast? = some (KvPart.s id) ∧
          ((applyDocOps c db ops).rows k).isSome = true)) := by
  obtain ⟨l1, l2, hviews⟩ := List.append_of_mem hmem
  have hnd2 : (l1.map Prod.fst ++ V :: l2.map Prod.fst).Nodup := by
    rw [hviews] at hnd
    simpa using hnd
  have h1 : ∀ p ∈ l1, p.1 ≠ V := by
    intro p hp hpv
    have hVmem : V ∈ l1.map Prod.fst := hpv ▸ List.mem_map_of_mem Prod.fst hp
    exact (List.nodup_append.mp hnd2).2.2 hVmem (List.mem_cons_self _ _)
  have h2 : ∀ p ∈ l2, p.1 ≠ V := by
    intro p hp hpv
    have hcons := (List.nodup_append.mp hnd2).2.1
    rw [List.nodup_cons] at hcons
    exact hcons.1 (hpv ▸ List.mem_map_of_mem Prod.fst hp)
  obtain ⟨hinv2, _⟩ :=
    applyDocOps_preserves c V lg l1 l2 hviews h1 h2 ops db hinv hsc
  refine ⟨hinv2, ?_, ?_⟩
  · intro id hid
    constructor
    · rw [hinv2.2 id, hid]
      rfl
    · intro k hk hlast
      rw [hinv2.1 k hk]
      unfold expectedRowAt
      rw [hlast]
      show (match (applyDocOps c db ops).docs id with
        | some e => writesLookup (liveRows c.ns V lg.map.fn id e) k
        | none => none) = none
      rw [hid]
  · intro id ks hks k
    have href := hinv2.2 id
    rw [hks] at href
    cases hdocs : (applyDocOps c db ops).docs id with
    | none =>
      rw [hdocs] at href
      cases href
    | some e =>
      rw [hdocs] at href
      injection href with hks2
      subst hks2
      constructor
      · intro hkmem
        have hshape := emittedRows_key_shape hkmem
        refine ⟨hshape.1, hshape.2, ?_⟩
        rw [hinv2.1 k hshape.1]
        unfold expectedRowAt
        rw [hshape.2]
        show (match (applyDocOps c db ops).docs id with
          | some e2 => writesLookup (liveRows c.ns V lg.map.fn id e2) k
          | none => none).isSome = true
        rw [hdocs]
        show (writesLookup (liveRows c.ns V lg.map.fn id e) k).isSome = true
        rw [writesLookup_isSome_iff]
        exact hkmem
      · rintro ⟨hk, hlast, hsome⟩
        rw [hinv2.1 k hk] at hsome
        unfold expectedRowAt at hsome
        rw [hlast] at hsome
        have hsome2 : (match (applyDocOps c db ops).docs id with
            | some e2 => writesLookup (liveRows c.ns V lg.map.fn id e2) k
            | none => none).isSome = true := hsome
        rw [hdocs] at hsome2
        have hsome3 : (writesLookup (liveRows c.ns V lg.map.fn id e) k).isSome
            = true := hsome2
        rw [writesLookup_isSome_iff] at hsome3
        exact hsome3

theorem view_maintenance_invariant_witness :
    (applyDocOps sampleCushion (emptyDB : DB Unit Unit)
        [DocOp.insert ("a") ⟨some ("a"), none, ()⟩]).refs ("v") ("a") =
      some [[KvPart.s ("n"), KvPart.s ("view"), KvPart.s ("v"),
        KvPart.s ("k"), KvPart.s ("a")]] := by
  have h := view_maintenance_invariant sampleCushion ("v") unitView emptyDB
    [DocOp.insert ("a") ⟨some ("a"), none, ()⟩]
    (List.mem_singleton.mpr rfl) (by decide)
    (viewInv_empty sampleCushion.ns ("v") unitView.map.fn)
    (refsWellScoped_empty sampleCushion.ns)
  have h2 := h.1.2 ("a")
  rw [h2]
  decide
